import Mathlib

/-!
Verification development for the offline-first session synchronization engine
of the itagts repository (src/src/components/PlanRunner.jsx).

The JavaScript source is shallowly embedded: pure helpers become Lean
functions, the stateful flush loop becomes explicit state passing over a
`Store` record, instants are modelled as `Int` milliseconds, and the remote
document store is an oracle whose calls are recorded in a trace.  Every
definition is translated from the source file, not from the specification
text; deviations forced by the embedding (for example, JSON numbers are
modelled as integers) are noted next to the definition they concern.
-/

namespace PlanRunner

/-! ## JSON values and a JSON.parse model

The local durable store (browser localStorage) holds strings.  The loaders in
PlanRunner.jsx call JSON.parse inside try/catch and fall back to an empty
default.  `Json` models parsed JavaScript values; `parseJson` models
JSON.parse as a total function returning `none` where JSON.parse throws.
Numbers are modelled as integers: the repository only ever stores integral
millisecond values and strings, so fractional or exponent literals are
treated as unparsable here.  Object literals keep the last occurrence of a
duplicate key in its first position, as JSON.parse does. -/

inductive Json where
  | null
  | bool (b : Bool)
  | num (n : Int)
  | str (s : String)
  | arr (xs : List Json)
  | obj (fields : List (String × Json))

def lbrace : Char := Char.ofNat 123
def rbrace : Char := Char.ofNat 125

def isWsChar (c : Char) : Bool :=
  c = ' ' || c = '\t' || c = '\n' || c = '\r'

def skipWs (cs : List Char) : List Char :=
  cs.dropWhile isWsChar

def digitsToNat (ds : List Char) : Nat :=
  ds.foldl (fun a c => a * 10 + (c.toNat - 48)) 0

def hexVal (c : Char) : Option Nat :=
  if c.isDigit then some (c.toNat - 48)
  else if 'a' ≤ c && c ≤ 'f' then some (c.toNat - 97 + 10)
  else if 'A' ≤ c && c ≤ 'F' then some (c.toNat - 65 + 10)
  else none

/-- Models parsing the remainder of a JSON string literal (after the opening
quote), handling the escape sequences JSON.parse accepts. -/
def pStrRest (fuel : Nat) (cs : List Char) (acc : List Char) :
    Option (String × List Char) :=
  match fuel with
  | 0 => none
  | fuel + 1 =>
    match cs with
    | [] => none
    | c :: rest =>
      if c = '"' then some (String.mk acc.reverse, rest)
      else if c = '\\' then
        match rest with
        | [] => none
        | e :: rest2 =>
          if e = '"' then pStrRest fuel rest2 ('"' :: acc)
          else if e = '\\' then pStrRest fuel rest2 ('\\' :: acc)
          else if e = '/' then pStrRest fuel rest2 ('/' :: acc)
          else if e = 'n' then pStrRest fuel rest2 ('\n' :: acc)
          else if e = 't' then pStrRest fuel rest2 ('\t' :: acc)
          else if e = 'r' then pStrRest fuel rest2 ('\r' :: acc)
          else if e = 'b' then pStrRest fuel rest2 (Char.ofNat 8 :: acc)
          else if e = 'f' then pStrRest fuel rest2 (Char.ofNat 12 :: acc)
          else if e = 'u' then
            match rest2 with
            | h1 :: h2 :: h3 :: h4 :: rest6 =>
              match hexVal h1, hexVal h2, hexVal h3, hexVal h4 with
              | some a, some b, some c3, some d =>
                pStrRest fuel rest6
                  (Char.ofNat (((a * 16 + b) * 16 + c3) * 16 + d) :: acc)
              | _, _, _, _ => none
            | _ => none
          else none
      else if c.toNat < 32 then none
      else pStrRest fuel rest (c :: acc)

/-- Models parsing a JSON number.  Only integer literals are modelled; see the
note on `Json`. -/
def pNum (cs : List Char) : Option (Json × List Char) :=
  let neg := match cs with | '-' :: _ => true | _ => false
  let cs1 := match cs with | '-' :: r => r | _ => cs
  let ds := cs1.takeWhile (fun c => c.isDigit)
  let rest := cs1.dropWhile (fun c => c.isDigit)
  if ds.isEmpty then none
  else if ds.length > 1 && ds.head? = some '0' then none
  else
    let n : Int := Int.ofNat (digitsToNat ds)
    some (Json.num (if neg then -n else n), rest)

/-- Sets a field of a JavaScript object: replaces an existing key in place,
otherwise appends, matching object assignment semantics. -/
def objSetField (fields : List (String × Json)) (k : String) (v : Json) :
    List (String × Json) :=
  match fields with
  | [] => [(k, v)]
  | (k1, v1) :: rest =>
    if k1 = k then (k, v) :: rest else (k1, v1) :: objSetField rest k v

mutual

def pVal : Nat → List Char → Option (Json × List Char)
  | 0, _ => none
  | Nat.succ fuel, cs =>
    match skipWs cs with
    | [] => none
    | c :: rest =>
      if c = 'n' then
        match rest with
        | 'u' :: 'l' :: 'l' :: r => some (Json.null, r)
        | _ => none
      else if c = 't' then
        match rest with
        | 'r' :: 'u' :: 'e' :: r => some (Json.bool true, r)
        | _ => none
      else if c = 'f' then
        match rest with
        | 'a' :: 'l' :: 's' :: 'e' :: r => some (Json.bool false, r)
        | _ => none
      else if c = '"' then
        match pStrRest (rest.length + 1) rest [] with
        | some (s, r) => some (Json.str s, r)
        | none => none
      else if c = '[' then
        match skipWs rest with
        | c2 :: r2 =>
          if c2 = ']' then some (Json.arr [], r2)
          else
            match pElems fuel (c2 :: r2) [] with
            | some (xs, r) => some (Json.arr xs, r)
            | none => none
        | [] => none
      else if c = lbrace then
        match skipWs rest with
        | c2 :: r2 =>
          if c2 = rbrace then some (Json.obj [], r2)
          else
            match pMembers fuel (c2 :: r2) [] with
            | some (fs, r) => some (Json.obj fs, r)
            | none => none
        | [] => none
      else if c = '-' || c.isDigit then pNum (c :: rest)
      else none

def pElems : Nat → List Char → List Json → Option (List Json × List Char)
  | 0, _, _ => none
  | Nat.succ fuel, cs, acc =>
    match pVal fuel cs with
    | none => none
    | some (j, rest) =>
      match skipWs rest with
      | c :: r2 =>
        if c = ',' then pElems fuel r2 (j :: acc)
        else if c = ']' then some ((j :: acc).reverse, r2)
        else none
      | [] => none

def pMembers : Nat → List Char → List (String × Json) →
    Option (List (String × Json) × List Char)
  | 0, _, _ => none
  | Nat.succ fuel, cs, acc =>
    match skipWs cs with
    | c :: rest =>
      if c = '"' then
        match pStrRest (rest.length + 1) rest [] with
        | none => none
        | some (k, r1) =>
          match skipWs r1 with
          | c2 :: r2 =>
            if c2 = ':' then
              match pVal fuel r2 with
              | none => none
              | some (v, r3) =>
                match skipWs r3 with
                | c3 :: r4 =>
                  if c3 = ',' then pMembers fuel r4 (objSetField acc k v)
                  else if c3 = rbrace then
                    some (objSetField acc k v, r4)
                  else none
                | [] => none
            else none
          | [] => none
      else none
    | [] => none

end

/-- Models JSON.parse: `none` exactly where JSON.parse throws (over the
integer-number subset noted at `Json`). -/
def parseJson (s : String) : Option Json :=
  match pVal (2 * s.length + 2) s.data with
  | some (j, rest) => if skipWs rest = [] then some j else none
  | none => none

/-! ## Local storage loaders

Each loader takes the raw stored entry (`none` models a missing key) and is a
total function, mirroring the try/catch in the source: the catch branch of
the original becomes the default value here.  The loaders do not validate
shape beyond what the original code would throw on, so `loadOutbox` returns
whatever JSON.parse produced, exactly like the source. -/

/-- Embeds loadOutbox:
try JSON.parse of the stored string (or the array literal when the entry is
missing or empty, which is falsy), catch yields the empty array. -/
def loadOutboxRaw (stored : Option String) : Json :=
  let raw := match stored with
    | none => "[]"
    | some s => if s = "" then "[]" else s
  match parseJson raw with
  | some j => j
  | none => Json.arr []

/-- Embeds loadIndex: like `loadOutboxRaw` with an empty-object default. -/
def loadIndexRaw (stored : Option String) : Json :=
  let raw := match stored with
    | none => "\x7b\x7d"
    | some s => if s = "" then "\x7b\x7d" else s
  match parseJson raw with
  | some j => j
  | none => Json.obj []

/-- Models the spread of a JavaScript value into an object literal: objects
contribute their fields, strings and arrays contribute index-keyed entries,
primitives contribute nothing. -/
def jsSpread : Json → List (String × Json)
  | Json.obj fs => fs
  | Json.str s =>
    (s.data.enum.map fun p => (toString p.1, Json.str (String.mk [p.2])))
  | Json.arr xs => (xs.enum.map fun p => (toString p.1, p.2))
  | _ => []

def objGetField (fields : List (String × Json)) (k : String) : Option Json :=
  match fields with
  | [] => none
  | (k1, v1) :: rest => if k1 = k then some v1 else objGetField rest k

/-- Models the Date revival applied to each stamp time during load.  The
original calls new Date on the stored value, which never throws; since this
embedding keeps instants in their stored form, the revival is the identity
on a present value and the null placeholder stands in for an invalid date
when the field is absent. -/
def jsTimeRevive (v : Option Json) : Json :=
  match v with
  | some j => j
  | none => Json.null

/-- Models one step of the stamp-revival map: spreading a null element
throws on the time access (`none`); everything else produces an object with
the time field overridden. -/
def mapStampJs (t : Json) : Option Json :=
  match t with
  | Json.null => none
  | _ =>
    let fs := jsSpread t
    some (Json.obj (objSetField fs "time" (jsTimeRevive (objGetField fs "time"))))

/-- The element-wise stamp revival, aborting at the first element whose
revival throws, as the map inside the try of loadStamps does. -/
def mapStampList : List Json → Option (List Json)
  | [] => some []
  | t :: rest =>
    match mapStampJs t, mapStampList rest with
    | some y, some ys => some (y :: ys)
    | _, _ => none

/-- Embeds loadStamps: a missing or empty entry is falsy and yields the empty
list; a parse failure, a parsed non-array (whose map access throws), or a
null element (whose time access throws) all fall into the catch and yield
the empty list. -/
def loadStampsRaw (stored : Option String) : Json :=
  match stored with
  | none => Json.arr []
  | some raw =>
    if raw = "" then Json.arr []
    else
      match parseJson raw with
      | none => Json.arr []
      | some (Json.arr xs) =>
        match mapStampList xs with
        | some ys => Json.arr ys
        | none => Json.arr []
      | some _ => Json.arr []

/-- Models SameValueZero equality used by JavaScript Set membership:
primitives compare by value; freshly parsed objects and arrays are distinct
references and never equal. -/
def jsSameValue (a b : Json) : Bool :=
  match a, b with
  | Json.null, Json.null => true
  | Json.bool x, Json.bool y => x = y
  | Json.num x, Json.num y => x = y
  | Json.str x, Json.str y => x = y
  | _, _ => false

def setAddJs (l : List Json) (x : Json) : List Json :=
  if l.any (fun y => jsSameValue y x) then l else l ++ [x]

/-- Models the Set constructor over a parsed value: arrays and strings are
iterable (a string iterates its characters); anything else throws. -/
def jsNewSet (j : Json) : Option (List Json) :=
  match j with
  | Json.arr xs => some (xs.foldl setAddJs [])
  | Json.str s => some (s.data.foldl (fun acc c => setAddJs acc (Json.str (String.mk [c]))) [])
  | _ => none

/-- Embeds loadProcessed: the Set built from the parsed entry, with the empty
set as the default for a missing entry, a parse failure, or a non-iterable
parsed value. -/
def loadProcessedRaw (stored : Option String) : List Json :=
  let raw := match stored with
    | none => "[]"
    | some s => if s = "" then "[]" else s
  match parseJson raw with
  | none => []
  | some j =>
    match jsNewSet j with
    | some l => l
    | none => []

/-! ## Stamps and the loop/capture state deriver -/

/-- A recorded timestamp.  The optional zuptId mirrors the conditional spread
in addStamp; `time` is the instant in milliseconds. -/
structure Stamp where
  zuptId : Option String
  zuptName : String
  time : Int
  duration : Nat
deriving DecidableEq, Repr

/-- Result record of deriveLoopState.  The captured set is modelled as an
insertion-ordered duplicate-free list, matching a JavaScript Set of
strings. -/
structure LoopState where
  loopIdx : Nat
  loopOn : Bool
  captured : List String
deriving DecidableEq, Repr

/-- Matches the anchored pattern of an uppercase letter L, one or more
digits, one or more whitespace characters, then exactly the keyword, as the
regexes on lines 195 and 196 of the source do.  There is no ignore-case
flag, so matching is case-sensitive. -/
def parseMarker (kw : List Char) (cs : List Char) : Option Nat :=
  match cs with
  | [] => none
  | c :: rest =>
    if c = 'L' then
      let ds := rest.takeWhile (fun d => d.isDigit)
      let rest2 := rest.dropWhile (fun d => d.isDigit)
      if ds.isEmpty then none
      else
        let ws := rest2.takeWhile isWsChar
        let rest3 := rest2.dropWhile isWsChar
        if ws.isEmpty then none
        else if rest3 = kw then some (digitsToNat ds) else none
    else none

/-- The Start-marker regex test and capture. -/
def rexStart (name : String) : Option Nat :=
  parseMarker "Start".data name.data

/-- The Stop-marker regex test and capture. -/
def rexStop (name : String) : Option Nat :=
  parseMarker "Stop".data name.data

/-- The list of lap numbers of Start markers, in stamp order. -/
def startsOf (stamps : List Stamp) : List Nat :=
  stamps.filterMap (fun s => rexStart s.zuptName)

/-- The lap numbers of Stop markers (the source collects them in a Set; only
membership is ever used). -/
def stopsOf (stamps : List Stamp) : List Nat :=
  stamps.filterMap (fun s => rexStop s.zuptName)

/-- Math.max over the collected Start numbers (all are naturals, so a fold
from zero agrees with the spread Math.max on a non-empty list). -/
def listMax (l : List Nat) : Nat := l.foldl max 0

def maxStartOf (stamps : List Stamp) : Nat := listMax (startsOf stamps)

/-- lastIndexOf on an array of names, with the JavaScript convention that a
missing element gives minus one. -/
def lastIndexOf (names : List String) (x : String) : Int :=
  match names.reverse.findIdx? (fun n => n = x) with
  | some i => Int.ofNat names.length - 1 - Int.ofNat i
  | none => -1

/-- Set insertion used to build the captured set. -/
def setAdd (l : List String) (x : String) : List String :=
  if x ∈ l then l else l ++ [x]

/-- The captured-set scan from a given start position: every later stamp
whose name is neither a Start marker, a Stop marker, nor a manual note is
added. -/
def capturedFrom (stamps : List Stamp) (startPos : Nat) : List String :=
  (stamps.drop startPos).foldl
    (fun acc s =>
      if (rexStart s.zuptName).isSome || (rexStop s.zuptName).isSome
          || s.zuptName.startsWith "MANUAL:" then acc
      else setAdd acc s.zuptName)
    []

/-- Embeds deriveLoopState (source lines 192 to 219): collect Start and Stop
lap numbers, take the greatest Start, decide openness by the absence of the
matching Stop, and scan for captures after the last occurrence of the
current Start marker name. -/
def deriveLoopState (stamps : List Stamp) : LoopState :=
  let starts := startsOf stamps
  let stops := stopsOf stamps
  if starts.isEmpty then { loopIdx := 1, loopOn := false, captured := [] }
  else
    let maxStart := listMax starts
    let loopOn := !(stops.contains maxStart)
    let loopIdx := if loopOn then maxStart else maxStart + 1
    let target := "L" ++ toString (if loopOn then loopIdx else loopIdx - 1) ++ " Start"
    let lastStartIdx := lastIndexOf (stamps.map (fun s => s.zuptName)) target
    { loopIdx := loopIdx
      loopOn := loopOn
      captured := capturedFrom stamps (max 0 (lastStartIdx + 1)).toNat }

/-! ## Session mutations: addStamp and undoLast -/

/-- Embeds the pure core of addStamp (source lines 467 to 476): the
anti-double-tap guard drops the stamp when the most recent stamp of the same
name is less than two seconds old, otherwise the stamp is appended. -/
def addStamp (stamps : List Stamp) (id : Option String) (name : String)
    (dur : Nat) (now : Int) : List Stamp :=
  match stamps.reverse.find? (fun s => s.zuptName = name) with
  | some lastForLoc =>
    if now - lastForLoc.time < 2000 then stamps
    else stamps ++ [{ zuptId := id, zuptName := name, time := now, duration := dur }]
  | none => stamps ++ [{ zuptId := id, zuptName := name, time := now, duration := dur }]

/-- The in-memory runner state touched by undoLast: the stamp list, the
active countdown reference and its remaining seconds, and the captured
set. -/
structure RunnerUiState where
  stamps : List Stamp
  activeName : Option String
  remain : Option Nat
  captured : List String
deriving DecidableEq, Repr

/-- Embeds undoLast (source lines 478 to 487), after the caller-boundary
confirmation: a no-op on an empty list, otherwise the last stamp is removed,
the countdown is cleared, and the name of the removed stamp is deleted from
the captured set. -/
def undoLast (st : RunnerUiState) : RunnerUiState :=
  match st.stamps.getLast? with
  | none => st
  | some lastStamp =>
    { stamps := st.stamps.dropLast
      activeName := none
      remain := none
      captured := st.captured.filter (fun n => n ≠ lastStamp.zuptName) }

/-! ## Outbox operations -/

/-- The operation payload fields the synchronizer ever forwards: a stamp
list for update payloads and an optional end instant for finish payloads.
Create payloads carry the full session document; only identity matters to
the claims, so the session document body is summarized by these fields
plus an opaque tag. -/
structure Payload where
  tag : String
  timestamps : List Stamp
  endedAt : Option Int
deriving DecidableEq, Repr

/-- The replayable operation kinds; touch operations are modelled by a
separate constructor because they carry no opId, sessionId, or payload. -/
inductive OpKind where
  | create
  | update
  | finish
deriving DecidableEq, Repr

/-- A replayable outbox operation, as pushed by pushReplace and
pushCreateOnce: a client-generated opId, a kind, a session id, and a
payload. -/
structure ROp where
  opId : String
  kind : OpKind
  sessionId : String
  payload : Payload
deriving DecidableEq, Repr

/-- An outbox entry: a replayable operation or a touch signal, which carries
only a wall-clock value. -/
inductive Op where
  | reg (o : ROp)
  | touch (ts : Int)
deriving DecidableEq, Repr

/-- The session id of a non-touch entry. -/
def Op.sessionId? : Op → Option String
  | Op.reg o => some o.sessionId
  | Op.touch _ => none

def Op.isTouch : Op → Bool
  | Op.reg _ => false
  | Op.touch _ => true

/-- Embeds pushReplace (source lines 124 to 129): every prior operation of
the same kind for the same session is filtered out, then the new operation
is appended.  The generated opId is a parameter of the embedding. -/
def pushReplace (ops : List Op) (sessionId : String) (k : OpKind)
    (payload : Payload) (opId : String) : List Op :=
  (ops.filter fun o =>
    match o with
    | Op.touch _ => true
    | Op.reg r => !(r.sessionId == sessionId && r.kind == k))
  ++ [Op.reg { opId := opId, kind := k, sessionId := sessionId, payload := payload }]

/-- Embeds pushCreateOnce (source lines 132 to 138): the create is appended
only when no create for that session id is present. -/
def pushCreateOnce (ops : List Op) (sessionId : String) (payload : Payload)
    (opId : String) : List Op :=
  if ops.any (fun o =>
      match o with
      | Op.touch _ => false
      | Op.reg r => r.kind == OpKind.create && r.sessionId == sessionId) then
    ops
  else
    ops ++ [Op.reg { opId := opId, kind := OpKind.create, sessionId := sessionId,
                     payload := payload }]

/-! ## Coalescing -/

/-- The per-session buckets built by the grouping pass. -/
structure SessionGroup where
  creates : List ROp
  updates : List ROp
  finishes : List ROp
deriving DecidableEq, Repr

def emptyGroup : SessionGroup := { creates := [], updates := [], finishes := [] }

/-- Pushes an operation into its bucket, as the grouping loop does. -/
def groupInsert (g : SessionGroup) (o : ROp) : SessionGroup :=
  match o.kind with
  | OpKind.create => { g with creates := g.creates ++ [o] }
  | OpKind.update => { g with updates := g.updates ++ [o] }
  | OpKind.finish => { g with finishes := g.finishes ++ [o] }

/-- Association-list get, modelling Map.get keyed by string equality. -/
def alistGet {α : Type} (m : List (String × α)) (k : String) : Option α :=
  match m with
  | [] => none
  | (k1, v1) :: rest => if k1 = k then some v1 else alistGet rest k

/-- Association-list set, modelling Map.set: an existing key keeps its
position, a new key is appended, preserving Map insertion order. -/
def alistSet {α : Type} (m : List (String × α)) (k : String) (v : α) :
    List (String × α) :=
  match m with
  | [] => [(k, v)]
  | (k1, v1) :: rest => if k1 = k then (k, v) :: rest else (k1, v1) :: alistSet rest k v

/-- Association-list delete, modelling key deletion. -/
def alistErase {α : Type} (m : List (String × α)) (k : String) :
    List (String × α) :=
  m.filter (fun kv => kv.1 ≠ k)

/-- The grouping loop of groupAndCoalesce: touch entries are skipped, every
other operation is appended to the bucket of its session. -/
def buildGroups (ops : List Op) : List (String × SessionGroup) :=
  ops.foldl
    (fun m op =>
      match op with
      | Op.touch _ => m
      | Op.reg o =>
        alistSet m o.sessionId (groupInsert ((alistGet m o.sessionId).getD emptyGroup) o))
    []

/-- One session of the write plan produced by coalescing. -/
structure Coalesced where
  sessionId : String
  create : Option ROp
  update : Option ROp
  finish : Option ROp
deriving DecidableEq, Repr

/-- Embeds groupAndCoalesce (source lines 141 to 161): group the non-touch
operations by session id and keep the first create, the last update, and
the last finish of each session. -/
def groupAndCoalesce (ops : List Op) : List Coalesced :=
  (buildGroups ops).map fun kv =>
    { sessionId := kv.1
      create := kv.2.creates.head?
      update := kv.2.updates.getLast?
      finish := kv.2.finishes.getLast? }

/-- The replayable operations of one session, in outbox order (used to state
what coalescing keeps and drops). -/
def regOps (ops : List Op) (sid : String) : List ROp :=
  ops.filterMap fun op =>
    match op with
    | Op.touch _ => none
    | Op.reg r => if r.sessionId = sid then some r else none

/-- The coalesced group of a session, when one exists. -/
def coalescedFor (ops : List Op) (sid : String) : Option Coalesced :=
  (groupAndCoalesce ops).find? (fun c => c.sessionId == sid)

/-- Folding the grouping step over a list of operations, starting from a
given bucket (proof helper). -/
def extendGroup (g : SessionGroup) (l : List ROp) : SessionGroup :=
  l.foldl groupInsert g

/-! ## The flush synchronizer -/

/-- A session index entry, as written by start and finish. -/
structure IndexEntry where
  id : String
  uid : String
  title : String
  planId : String
  planName : String
  startedAt : String
  startedOffline : Bool
  status : String
deriving DecidableEq, Repr

/-- The persisted state the synchronizer reads and writes: the outbox, the
session index, the per-session stamp lists, and the processed opId set
(modelled as an insertion-ordered duplicate-free list). -/
structure Store where
  outbox : List Op
  index : List (String × IndexEntry)
  stampsMap : List (String × List Stamp)
  processed : List String
deriving DecidableEq, Repr

/-- A remote call attempted during flush, carrying the payload sent. -/
inductive RemoteCall where
  | createDoc (payload : Payload)
  | updateDocById (docId : String) (payload : Payload)
deriving DecidableEq, Repr

/-- The remote document store as an oracle: the result of the n-th create
attempt (a fresh document id or a thrown error) and of the n-th update
attempt. -/
structure Remote where
  createRes : Nat → Except Unit String
  updateRes : Nat → Except Unit Unit

/-- A remote for which every call succeeds; `f` issues the ids of successive
creates. -/
def allOk (f : Nat → String) : Remote :=
  { createRes := fun n => Except.ok (f n), updateRes := fun _ => Except.ok () }

/-- Embeds rehydrateTimestampsInPayload: the original converts stored plain
numbers back into native instant values; instants are already canonical
integers in this embedding, so the conversion is the identity on every
field it touches. -/
def rehydrateTimestampsInPayload (p : Payload) : Payload := p

/-- Embeds the remember helper of flush: an opId is added to the processed
set only when truthy (the empty string is falsy). -/
def rememberOp (processed : List String) (opId : String) : List String :=
  if opId = "" then processed
  else if opId ∈ processed then processed else processed ++ [opId]

/-- The mutable state threaded through the flush loop: the processed set,
the local-to-remote id map, the retained operations, the index and stamp
caches, the per-oracle call counters, and the trace of attempted remote
calls. -/
structure FlushCtx where
  processed : List String
  idMap : List (String × String)
  remaining : List Op
  index : List (String × IndexEntry)
  stampsMap : List (String × List Stamp)
  nCreate : Nat
  nUpdate : Nat
  calls : List RemoteCall
deriving Repr

/-- The operations the catch branch retains for a failed session: every
non-touch outbox entry with that session id, verbatim and in order. -/
def retainedFor (ops : List Op) (localId : String) : List Op :=
  ops.filter fun o =>
    match o with
    | Op.touch _ => false
    | Op.reg r => r.sessionId == localId

/-- The finish step of one coalesced group: skipped when absent or already
processed; an update call is attempted otherwise, and a thrown call retains
the original operations of the session. -/
def runFinishStep (rem : Remote) (retained : List Op) (fin : Option ROp)
    (targetId : String) (c : FlushCtx) : FlushCtx :=
  match fin with
  | none => c
  | some fop =>
    if fop.opId ∈ c.processed then c
    else
      let c1 := { c with
        nUpdate := c.nUpdate + 1
        calls := c.calls ++ [RemoteCall.updateDocById targetId
          (rehydrateTimestampsInPayload fop.payload)] }
      match rem.updateRes c.nUpdate with
      | Except.error _ => { c1 with remaining := c1.remaining ++ retained }
      | Except.ok _ => { c1 with processed := rememberOp c1.processed fop.opId }

/-- The update step of one coalesced group, followed by the finish step.  A
thrown update aborts the group (the finish is not attempted) and retains the
original operations of the session. -/
def runUpdateStep (rem : Remote) (retained : List Op) (upd fin : Option ROp)
    (targetId : String) (c : FlushCtx) : FlushCtx :=
  match upd with
  | none => runFinishStep rem retained fin targetId c
  | some uop =>
    if uop.opId ∈ c.processed then runFinishStep rem retained fin targetId c
    else
      let c1 := { c with
        nUpdate := c.nUpdate + 1
        calls := c.calls ++ [RemoteCall.updateDocById targetId
          (rehydrateTimestampsInPayload uop.payload)] }
      match rem.updateRes c.nUpdate with
      | Except.error _ => { c1 with remaining := c1.remaining ++ retained }
      | Except.ok _ =>
        runFinishStep rem retained fin targetId
          { c1 with processed := rememberOp c1.processed uop.opId }

/-- The attempt bookkeeping of an unprocessed create: the call is recorded
before its outcome is known. -/
def bumpCreate (c : FlushCtx) (cop : ROp) : FlushCtx :=
  { c with
    nCreate := c.nCreate + 1
    calls := c.calls ++ [RemoteCall.createDoc
      (rehydrateTimestampsInPayload cop.payload)] }

/-- The local mutations after a successful create (source lines 403 to 417):
record the id mapping, move the index entry from the local id to the remote
id, copy a non-empty stamp cache entry to the remote id, and mark the opId
processed. -/
def migrateCreate (c : FlushCtx) (localId rid : String) (cop : ROp) : FlushCtx :=
  let c2 := { c with idMap := alistSet c.idMap localId rid }
  let c3 :=
    match alistGet c2.index localId with
    | some e =>
      { c2 with index := alistErase (alistSet c2.index rid { e with id := rid }) localId }
    | none => c2
  let oldStamps := (alistGet c3.stampsMap localId).getD []
  let c4 :=
    if oldStamps.isEmpty then c3
    else { c3 with stampsMap := alistSet c3.stampsMap rid oldStamps }
  { c4 with processed := rememberOp c4.processed cop.opId }

/-- One iteration of the flush loop over a coalesced group (source lines
395 to 442): apply the unprocessed create (recording the remote id, moving
the index entry to it, and copying the stamp cache entry to it), then the
update, then the finish, retaining the original operations of the session
on the first thrown call. -/
def runGroup (rem : Remote) (ops : List Op) (item : Coalesced) (c : FlushCtx) :
    FlushCtx :=
  let localId := item.sessionId
  let retained := retainedFor ops localId
  match item.create with
  | some cop =>
    if cop.opId ∈ c.processed then
      runUpdateStep rem retained item.update item.finish
        ((alistGet c.idMap localId).getD localId) c
    else
      let c1 := bumpCreate c cop
      match rem.createRes c.nCreate with
      | Except.error _ => { c1 with remaining := c1.remaining ++ retained }
      | Except.ok rid =>
        runUpdateStep rem retained item.update item.finish rid
          (migrateCreate c1 localId rid cop)
  | none =>
    runUpdateStep rem retained item.update item.finish
      ((alistGet c.idMap localId).getD localId) c

/-- The index prune at the end of flush: iterate over a snapshot of the
index entries, deleting every entry that is not active and has no pending
operation left. -/
def pruneIndex (index : List (String × IndexEntry)) (stillPending : List String) :
    List (String × IndexEntry) :=
  index.foldl
    (fun idx kv =>
      if kv.2.status ≠ "active" && !(stillPending.contains kv.2.id) then
        alistErase idx kv.2.id
      else idx)
    index

/-- Embeds the flush closure (source lines 381 to 462): an empty outbox
returns immediately; otherwise the coalesced plan is executed group by
group, the processed set and the retained operations (touch entries
dropped) are persisted, and the index is pruned.  The second component is
the trace of attempted remote calls. -/
def flush (rem : Remote) (st : Store) : Store × List RemoteCall :=
  if st.outbox.isEmpty then (st, [])
  else
    let plan := groupAndCoalesce st.outbox
    let c0 : FlushCtx :=
      { processed := st.processed, idMap := [], remaining := [],
        index := st.index, stampsMap := st.stampsMap,
        nCreate := 0, nUpdate := 0, calls := [] }
    let c := plan.foldl (fun acc item => runGroup rem st.outbox item acc) c0
    let filtered := c.remaining.filter (fun o => !o.isTouch)
    let stillPending := filtered.filterMap Op.sessionId?
    ({ outbox := filtered
       index := pruneIndex c.index stillPending
       stampsMap := c.stampsMap
       processed := c.processed }, c.calls)

/-! ## Failure observables of the flush loop

The step functions below re-run the decision structure of runFinishStep,
runUpdateStep, and runGroup while also reporting whether the step hit a
thrown remote call.  Their first components are proved equal to the plain
step functions below, so the reported flag is exactly the event that one of
the remote calls attempted for the group threw. -/

def runFinishStepF (rem : Remote) (retained : List Op) (fin : Option ROp)
    (targetId : String) (c : FlushCtx) : FlushCtx × Bool :=
  match fin with
  | none => (c, false)
  | some fop =>
    if fop.opId ∈ c.processed then (c, false)
    else
      let c1 := { c with
        nUpdate := c.nUpdate + 1
        calls := c.calls ++ [RemoteCall.updateDocById targetId
          (rehydrateTimestampsInPayload fop.payload)] }
      match rem.updateRes c.nUpdate with
      | Except.error _ => ({ c1 with remaining := c1.remaining ++ retained }, true)
      | Except.ok _ => ({ c1 with processed := rememberOp c1.processed fop.opId }, false)

def runUpdateStepF (rem : Remote) (retained : List Op) (upd fin : Option ROp)
    (targetId : String) (c : FlushCtx) : FlushCtx × Bool :=
  match upd with
  | none => runFinishStepF rem retained fin targetId c
  | some uop =>
    if uop.opId ∈ c.processed then runFinishStepF rem retained fin targetId c
    else
      let c1 := { c with
        nUpdate := c.nUpdate + 1
        calls := c.calls ++ [RemoteCall.updateDocById targetId
          (rehydrateTimestampsInPayload uop.payload)] }
      match rem.updateRes c.nUpdate with
      | Except.error _ => ({ c1 with remaining := c1.remaining ++ retained }, true)
      | Except.ok _ =>
        runFinishStepF rem retained fin targetId
          { c1 with processed := rememberOp c1.processed uop.opId }

def runGroupF (rem : Remote) (ops : List Op) (item : Coalesced) (c : FlushCtx) :
    FlushCtx × Bool :=
  let localId := item.sessionId
  let retained := retainedFor ops localId
  match item.create with
  | some cop =>
    if cop.opId ∈ c.processed then
      runUpdateStepF rem retained item.update item.finish
        ((alistGet c.idMap localId).getD localId) c
    else
      let c1 := bumpCreate c cop
      match rem.createRes c.nCreate with
      | Except.error _ => ({ c1 with remaining := c1.remaining ++ retained }, true)
      | Except.ok rid =>
        runUpdateStepF rem retained item.update item.finish rid
          (migrateCreate c1 localId rid cop)
  | none =>
    runUpdateStepF rem retained item.update item.finish
      ((alistGet c.idMap localId).getD localId) c

/-- Whether a remote call attempted for this coalesced group throws when
the group is processed in the given context. -/
def groupFails (rem : Remote) (ops : List Op) (item : Coalesced) (c : FlushCtx) :
    Bool :=
  (runGroupF rem ops item c).2

/-- The flush context a flush run starts from, built from the persisted
state. -/
def initCtx (st : Store) : FlushCtx :=
  { processed := st.processed, idMap := [], remaining := [],
    index := st.index, stampsMap := st.stampsMap,
    nCreate := 0, nUpdate := 0, calls := [] }

/-- The failure flag of every group of one flush run, in plan order: each
flag is computed in the context the flush loop actually reaches that group
with. -/
def flushFlags (rem : Remote) (ops : List Op) :
    List Coalesced → FlushCtx → List Bool
  | [], _ => []
  | item :: rest, c =>
    groupFails rem ops item c :: flushFlags rem ops rest (runGroup rem ops item c)

/-- Whether an outbox entry is already recorded in a processed set (touch
entries are never replayed, so they count as processed). -/
def opProcessedIn (processed : List String) : Op → Bool
  | Op.reg r => processed.contains r.opId
  | Op.touch _ => true

/-- Whether an operation belongs to one of the three buckets of a group. -/
def rInGroup (r : ROp) (g : SessionGroup) : Prop :=
  r ∈ g.creates ∨ r ∈ g.updates ∨ r ∈ g.finishes

/-! ## Per-session operation multiplicity (used by claim C10) -/

/-- Whether an outbox entry is a replayable operation of the given session
and kind. -/
def opMatches (sid : String) (k : OpKind) : Op → Bool
  | Op.reg r => r.sessionId == sid && r.kind == k
  | Op.touch _ => false

/-- How many operations of the given session and kind the outbox holds. -/
def opCount (ops : List Op) (sid : String) (k : OpKind) : Nat :=
  ops.countP (opMatches sid k)

/-- The per-session uniqueness invariant: at most one create, one update,
and one finish per session id. -/
def OutboxUnique (ops : List Op) : Prop :=
  ∀ sid k, opCount ops sid k ≤ 1

/-! ## Concrete instances used by counterexamples and witnesses -/

def payA : Payload := { tag := "a", timestamps := [], endedAt := none }
def payB : Payload := { tag := "b", timestamps := [], endedAt := none }
def entry1 : IndexEntry :=
  { id := "local:1", uid := "u", title := "t", planId := "p", planName := "pn",
    startedAt := "s", startedOffline := true, status := "active" }
def st2 : Stamp := ⟨none, "Z1", 7, 3⟩
def storeC2 : Store :=
  { outbox := [Op.reg ⟨"opC", OpKind.create, "local:1", payA⟩]
    index := [("local:1", entry1)]
    stampsMap := [("local:1", [st2])]
    processed := [] }

def remFailFirst : Remote :=
  { createRes := fun n => if n = 0 then Except.error () else Except.ok "R2"
    updateRes := fun _ => Except.ok () }
def storeC8 : Store :=
  { outbox := [Op.reg ⟨"op1", OpKind.create, "s1", payA⟩,
               Op.touch 5,
               Op.reg ⟨"op2", OpKind.create, "s2", payB⟩]
    index := []
    stampsMap := []
    processed := [] }

/-- A concrete stamp list that ends in an L3 Start with no L3 Stop anywhere
but whose greatest Start number is 5. -/
def c4Stamps : List Stamp :=
  [⟨none, "L5 Start", 0, 0⟩, ⟨none, "L5 Stop", 1, 0⟩, ⟨none, "L3 Start", 2, 0⟩]

/-! ## Theorems -/

/-- Folding max over a list either keeps the seed or lands on an element. -/
lemma foldl_max_eq_or_mem (l : List Nat) :
    ∀ a : Nat, l.foldl max a = a ∨ l.foldl max a ∈ l := by
  induction l with
  | nil => intro a; left; rfl
  | cons x xs ih =>
    intro a
    rcases ih (max a x) with h | h
    · rcases max_choice a x with hm | hm
      · left
        simpa [hm] using h
      · right
        rw [List.foldl_cons, h, hm]
        exact List.mem_cons_self x xs
    · right
      exact List.mem_cons_of_mem x h

/-- Folding max over a list bounds the seed and every element from below. -/
lemma le_foldl_max (l : List Nat) :
    ∀ a : Nat, a ≤ l.foldl max a ∧ ∀ x ∈ l, x ≤ l.foldl max a := by
  induction l with
  | nil =>
    intro a
    exact ⟨Nat.le_refl a, by intro x hx; cases hx⟩
  | cons y ys ih =>
    intro a
    refine ⟨Nat.le_trans (Nat.le_max_left a y) (ih (max a y)).1, ?_⟩
    intro x hx
    rcases List.mem_cons.mp hx with rfl | hx
    · exact Nat.le_trans (Nat.le_max_right a x) (ih (max a x)).1
    · exact (ih (max a y)).2 x hx

/-- The maximum of a non-empty list is one of its elements. -/
lemma listMax_mem (l : List Nat) (h : l ≠ []) : listMax l ∈ l := by
  cases l with
  | nil => exact absurd rfl h
  | cons x xs =>
    show xs.foldl max (max 0 x) ∈ x :: xs
    rw [Nat.zero_max]
    rcases foldl_max_eq_or_mem xs x with h0 | h0
    · rw [h0]
      exact List.mem_cons_self x xs
    · exact List.mem_cons_of_mem x h0

/-- Every element is at most the list maximum. -/
lemma le_listMax (l : List Nat) (x : Nat) (hx : x ∈ l) : x ≤ listMax l :=
  (le_foldl_max l 0).2 x hx

/-- The branch of deriveLoopState for a list without Start markers. -/
lemma deriveLoopState_no_start (stamps : List Stamp)
    (h : ∀ s ∈ stamps, rexStart s.zuptName = none) :
    deriveLoopState stamps = ⟨1, false, []⟩ := by
  have hnil : startsOf stamps = [] := by
    unfold startsOf
    exact List.filterMap_eq_nil_iff.mpr h
  simp [deriveLoopState, hnil]

/-- On a list with a Start marker, the openness flag is the absence of the
matching Stop for the greatest Start number. -/
lemma deriveLoopState_loopOn (stamps : List Stamp) (h : startsOf stamps ≠ []) :
    (deriveLoopState stamps).loopOn =
      !((stopsOf stamps).contains (maxStartOf stamps)) := by
  unfold maxStartOf
  simp only [deriveLoopState]
  rw [if_neg (by simpa using h)]

/-- On a list with a Start marker, the lap index is the greatest Start
number, bumped by one when the matching Stop is present. -/
lemma deriveLoopState_loopIdx (stamps : List Stamp) (h : startsOf stamps ≠ []) :
    (deriveLoopState stamps).loopIdx =
      (if (stopsOf stamps).contains (maxStartOf stamps) then maxStartOf stamps + 1
       else maxStartOf stamps) := by
  unfold maxStartOf
  simp only [deriveLoopState]
  rw [if_neg (by simpa using h)]
  cases hb : (stopsOf stamps).contains (listMax (startsOf stamps)) with
  | false => rfl
  | true => rfl

/-- Membership in the collected Stop numbers is the existence of a matching
Stop stamp. -/
lemma stops_contains_iff (stamps : List Stamp) (n : Nat) :
    (stopsOf stamps).contains n = true ↔
      ∃ s ∈ stamps, rexStop s.zuptName = some n := by
  rw [show (stopsOf stamps).contains n = List.elem n (stopsOf stamps) from rfl]
  rw [List.elem_iff]
  unfold stopsOf
  rw [List.mem_filterMap]

/-- Membership in the collected Start numbers. -/
lemma starts_mem_iff (stamps : List Stamp) (n : Nat) :
    n ∈ startsOf stamps ↔ ∃ s ∈ stamps, rexStart s.zuptName = some n := by
  unfold startsOf
  rw [List.mem_filterMap]

/-- Claim C6: a stamp whose name equals the name of a previous stamp recorded
less than two seconds earlier is silently dropped, so two captures of the
same name within 2000 milliseconds produce exactly one stamp.  The first
conjunct is the debounce itself; the second shows that after a fresh stamp
is appended, a second capture of the same name within 2000 milliseconds
leaves the list unchanged. -/
theorem claim_C6_debounce :
    (∀ (stamps : List Stamp) (id : Option String) (name : String) (dur : Nat)
        (t : Int) (lastForLoc : Stamp),
      stamps.reverse.find? (fun s => s.zuptName = name) = some lastForLoc →
      t - lastForLoc.time < 2000 →
      addStamp stamps id name dur t = stamps) ∧
    (∀ (stamps : List Stamp) (id id2 : Option String) (name : String)
        (dur dur2 : Nat) (t1 t2 : Int),
      (∀ s ∈ stamps, s.zuptName = name → 2000 ≤ t1 - s.time) →
      t2 - t1 < 2000 →
      addStamp stamps id name dur t1 = stamps ++ [⟨id, name, t1, dur⟩] ∧
      addStamp (stamps ++ [⟨id, name, t1, dur⟩]) id2 name dur2 t2 =
        stamps ++ [⟨id, name, t1, dur⟩]) := by
  constructor
  · intro stamps id name dur t lastForLoc hfind hlt
    simp only [addStamp, hfind]
    rw [if_pos hlt]
  · intro stamps id id2 name dur dur2 t1 t2 hfresh hlt
    have happend :
        addStamp stamps id name dur t1 = stamps ++ [⟨id, name, t1, dur⟩] := by
      cases hf : stamps.reverse.find? (fun s => s.zuptName = name) with
      | none => simp only [addStamp, hf]
      | some lastForLoc =>
        have hname : lastForLoc.zuptName = name := by
          have := List.find?_some hf
          simpa using this
        have hmem : lastForLoc ∈ stamps := by
          have := List.mem_of_find?_eq_some hf
          simpa using this
        have hge := hfresh lastForLoc hmem hname
        simp only [addStamp, hf]
        rw [if_neg (by omega)]
    refine ⟨happend, ?_⟩
    have hrev :
        (stamps ++ [(⟨id, name, t1, dur⟩ : Stamp)]).reverse =
          (⟨id, name, t1, dur⟩ : Stamp) :: stamps.reverse := by
      simp
    simp only [addStamp, hrev]
    rw [List.find?_cons_of_pos _ (by simp)]
    simp only []
    rw [if_pos (by simpa using hlt)]

/-- Claim C6 witness: a concrete second capture 1500 milliseconds after the
first is dropped, and a fresh capture followed by one 1200 milliseconds
later yields exactly one appended stamp. -/
theorem claim_C6_witness :
    addStamp [⟨none, "Z1", 0, 5⟩] none "Z1" 5 1500 = [⟨none, "Z1", 0, 5⟩] ∧
    addStamp [] none "Z2" 4 100 = [⟨none, "Z2", 100, 4⟩] ∧
    addStamp [⟨none, "Z2", 100, 4⟩] none "Z2" 4 1300 = [⟨none, "Z2", 100, 4⟩] := by
  refine ⟨?_, ?_, ?_⟩
  · exact claim_C6_debounce.1 [⟨none, "Z1", 0, 5⟩] none "Z1" 5 1500 ⟨none, "Z1", 0, 5⟩
      (by decide) (by decide)
  · exact (claim_C6_debounce.2 [] none none "Z2" 4 4 100 1300
      (by intro s hs; simp at hs) (by decide)).1
  · exact (claim_C6_debounce.2 [] none none "Z2" 4 4 100 1300
      (by intro s hs; simp at hs) (by decide)).2

/-- Claim C7: undoLast removes exactly the last stamp and nothing else, is a
no-op on an empty list, and on the concrete session [L1 Start, Z1] the
resulting list is [L1 Start] with Z1 leaving the derived captured set. -/
theorem claim_C7_undo :
    (∀ st : RunnerUiState, st.stamps = [] → undoLast st = st) ∧
    (∀ st : RunnerUiState, st.stamps ≠ [] →
      (undoLast st).stamps = st.stamps.dropLast) ∧
    ((undoLast ⟨[⟨none, "L1 Start", 0, 0⟩, ⟨none, "Z1", 5, 0⟩],
        some "Z1", some 3, ["Z1"]⟩).stamps = [⟨none, "L1 Start", 0, 0⟩] ∧
      "Z1" ∈ (deriveLoopState [⟨none, "L1 Start", 0, 0⟩, ⟨none, "Z1", 5, 0⟩]).captured ∧
      "Z1" ∉ (deriveLoopState [⟨none, "L1 Start", 0, 0⟩]).captured) := by
  refine ⟨?_, ?_, by decide, by decide, by decide⟩
  · intro st hnil
    unfold undoLast
    rw [List.getLast?_eq_none_iff.mpr hnil]
  · intro st hne
    unfold undoLast
    cases hl : st.stamps.getLast? with
    | none => exact absurd (List.getLast?_eq_none_iff.mp hl) hne
    | some lastStamp => rfl

/-- Claim C7 witness: the no-op on the empty state and the removal of the
last stamp of a concrete two-stamp state, both through the theorem. -/
theorem claim_C7_witness :
    undoLast ⟨[], none, none, []⟩ = (⟨[], none, none, []⟩ : RunnerUiState) ∧
    (undoLast ⟨[⟨none, "A", 0, 0⟩, ⟨none, "B", 1, 0⟩], none, none, []⟩).stamps =
      [⟨none, "A", 0, 0⟩, ⟨none, "B", 1, 0⟩].dropLast := by
  refine ⟨?_, ?_⟩
  · exact claim_C7_undo.1 _ rfl
  · exact claim_C7_undo.2.1 _ (by decide)

/-- An entry surviving the pushReplace filter for a pair cannot match that
same pair. -/
lemma keep_imp_not_match (sid : String) (k : OpKind) (o : Op)
    (hkeep : (match o with
      | Op.touch _ => true
      | Op.reg r => !(r.sessionId == sid && r.kind == k)) = true) :
    opMatches sid k o = false := by
  cases o with
  | touch ts => simp [opMatches]
  | reg r =>
    simp only [Bool.not_eq_eq_eq_not, Bool.not_true] at hkeep
    simpa [opMatches] using hkeep

/-- Claim C10: pushReplace and pushCreateOnce preserve the invariant that
the outbox holds at most one create, one update, and one finish per session
id. -/
theorem claim_C10_unique
    (ops : List Op) (sid : String) (k : OpKind) (payload : Payload) (opId : String)
    (h : OutboxUnique ops) :
    OutboxUnique (pushReplace ops sid k payload opId) ∧
    OutboxUnique (pushCreateOnce ops sid payload opId) := by
  constructor
  · intro sid2 k2
    unfold opCount pushReplace
    rw [List.countP_append]
    by_cases hpair : sid2 = sid ∧ k2 = k
    · obtain ⟨rfl, rfl⟩ := hpair
      have hz : List.countP (opMatches sid2 k2)
          (ops.filter fun o =>
            match o with
            | Op.touch _ => true
            | Op.reg r => !(r.sessionId == sid2 && r.kind == k2)) = 0 := by
        rw [List.countP_eq_zero]
        intro a ha
        have hk := (List.mem_filter.mp ha).2
        simp [keep_imp_not_match sid2 k2 a hk]
      rw [hz]
      simp [opMatches]
    · have h1 : List.countP (opMatches sid2 k2)
          (ops.filter fun o =>
            match o with
            | Op.touch _ => true
            | Op.reg r => !(r.sessionId == sid && r.kind == k)) ≤
          List.countP (opMatches sid2 k2) ops :=
        (List.filter_sublist ops).countP_le _
      have h2 : List.countP (opMatches sid2 k2)
          [Op.reg { opId := opId, kind := k, sessionId := sid, payload := payload }] = 0 := by
        rw [List.countP_eq_zero]
        intro a ha
        simp only [List.mem_singleton] at ha
        subst ha
        simp only [opMatches, Bool.and_eq_true, beq_iff_eq, not_and]
        intro hs hk
        exact hpair ⟨hs.symm, hk.symm⟩
      have h3 := h sid2 k2
      unfold opCount at h3
      omega
  · intro sid2 k2
    unfold opCount pushCreateOnce
    by_cases hany : ops.any (fun o =>
        match o with
        | Op.touch _ => false
        | Op.reg r => r.kind == OpKind.create && r.sessionId == sid) = true
    · rw [if_pos hany]
      exact h sid2 k2
    · rw [if_neg hany]
      rw [List.countP_append]
      by_cases hpair : sid2 = sid ∧ k2 = OpKind.create
      · obtain ⟨rfl, rfl⟩ := hpair
        have hz : List.countP (opMatches sid2 OpKind.create) ops = 0 := by
          rw [List.countP_eq_zero]
          intro a ha hm
          apply hany
          rw [List.any_eq_true]
          refine ⟨a, ha, ?_⟩
          cases a with
          | touch ts => simp [opMatches] at hm
          | reg r =>
            simp only [opMatches, Bool.and_eq_true] at hm
            simp [hm.1, hm.2]
        rw [hz]
        simp [opMatches]
      · have h2 : List.countP (opMatches sid2 k2)
            [Op.reg { opId := opId, kind := OpKind.create, sessionId := sid,
                      payload := payload }] = 0 := by
          rw [List.countP_eq_zero]
          intro a ha
          simp only [List.mem_singleton] at ha
          subst ha
          simp only [opMatches, Bool.and_eq_true, beq_iff_eq, not_and]
          intro hs hk
          exact hpair ⟨hs.symm, hk.symm⟩
        have h3 := h sid2 k2
        unfold opCount at h3
        omega

/-- Claim C10 witness: both enqueue helpers preserve the invariant starting
from the empty outbox. -/
theorem claim_C10_witness :
    OutboxUnique (pushReplace [] "s1" OpKind.update
      { tag := "p", timestamps := [], endedAt := none } "op1") ∧
    OutboxUnique (pushCreateOnce [] "s1"
      { tag := "p", timestamps := [], endedAt := none } "op2") := by
  have hbase : OutboxUnique [] := by
    intro sid k
    simp [opCount]
  exact claim_C10_unique [] "s1" OpKind.update
    { tag := "p", timestamps := [], endedAt := none } "op1" hbase

/-- Claim C4 counterexample: the list [L5 Start, L5 Stop, L3 Start] ends in
an unmatched L3 Start, yet the deriver returns loopIdx six and a closed
loop, because the greatest Start number wins regardless of position; so the
clause that every list ending in an unmatched L3 Start yields loopOpen true
and loopIndex three is false as stated. -/
theorem claim_C4_counterexample :
    c4Stamps.getLast? = some ⟨none, "L3 Start", 2, 0⟩ ∧
    rexStart "L3 Start" = some 3 ∧
    (∀ s ∈ c4Stamps, rexStop s.zuptName ≠ some 3) ∧
    deriveLoopState c4Stamps = ⟨6, false, []⟩ ∧
    ¬((deriveLoopState c4Stamps).loopOn = true ∧
      (deriveLoopState c4Stamps).loopIdx = 3) := by
  refine ⟨by decide, by decide, by decide, by decide, by decide⟩

/-- Claim C4, amended: with no Start marker the deriver returns loopIdx one,
a closed loop, and an empty captured set; otherwise, with maxStart the
greatest Start number, the loop is open exactly when no matching Stop
exists anywhere, and loopIdx is maxStart when open and maxStart plus one
when closed.  Hence a list in which every occurring Start number has a
matching Stop yields a closed loop at maxStart plus one, and a list ending
in an unmatched L3 Start whose greatest Start number is three yields an
open loop at index three. -/
theorem claim_C4_amended (stamps : List Stamp) :
    ((∀ s ∈ stamps, rexStart s.zuptName = none) →
      deriveLoopState stamps = ⟨1, false, []⟩) ∧
    (startsOf stamps ≠ [] →
      ((deriveLoopState stamps).loopOn = true ↔
        ¬ ∃ s ∈ stamps, rexStop s.zuptName = some (maxStartOf stamps)) ∧
      (deriveLoopState stamps).loopIdx =
        (if (deriveLoopState stamps).loopOn = true then maxStartOf stamps
         else maxStartOf stamps + 1)) ∧
    (startsOf stamps ≠ [] →
      (∀ n ∈ startsOf stamps, ∃ s ∈ stamps, rexStop s.zuptName = some n) →
      (deriveLoopState stamps).loopOn = false ∧
      (deriveLoopState stamps).loopIdx = maxStartOf stamps + 1) ∧
    (∀ lastS : Stamp, stamps.getLast? = some lastS →
      rexStart lastS.zuptName = some 3 →
      (∀ n ∈ startsOf stamps, n ≤ 3) →
      (¬ ∃ s ∈ stamps, rexStop s.zuptName = some 3) →
      (deriveLoopState stamps).loopOn = true ∧
      (deriveLoopState stamps).loopIdx = 3) := by
  refine ⟨deriveLoopState_no_start stamps, ?_, ?_, ?_⟩
  · intro h
    constructor
    · rw [deriveLoopState_loopOn stamps h, ← stops_contains_iff stamps (maxStartOf stamps)]
      cases hb : (stopsOf stamps).contains (maxStartOf stamps) <;> simp [hb]
    · rw [deriveLoopState_loopIdx stamps h, deriveLoopState_loopOn stamps h]
      cases hb : (stopsOf stamps).contains (maxStartOf stamps) <;> simp [hb]
  · intro h hpairs
    have hmem : maxStartOf stamps ∈ startsOf stamps := listMax_mem _ h
    have hcontains : (stopsOf stamps).contains (maxStartOf stamps) = true :=
      (stops_contains_iff _ _).mpr (hpairs _ hmem)
    constructor
    · rw [deriveLoopState_loopOn stamps h, hcontains]
      rfl
    · rw [deriveLoopState_loopIdx stamps h, hcontains]
      rfl
  · intro lastS hgl hrex hle hnostop
    have hmem3 : (3 : Nat) ∈ startsOf stamps :=
      (starts_mem_iff _ _).mpr ⟨lastS, List.mem_of_getLast?_eq_some hgl, hrex⟩
    have hne : startsOf stamps ≠ [] := by
      intro hnil
      rw [hnil] at hmem3
      cases hmem3
    have hmax3 : maxStartOf stamps = 3 := by
      apply Nat.le_antisymm
      · exact hle _ (listMax_mem _ hne)
      · exact le_listMax _ 3 hmem3
    have hcontains : (stopsOf stamps).contains 3 = false := by
      cases hb : (stopsOf stamps).contains 3 with
      | false => rfl
      | true => exact absurd ((stops_contains_iff _ _).mp hb) hnostop
    constructor
    · rw [deriveLoopState_loopOn stamps hne, hmax3, hcontains]
      rfl
    · rw [deriveLoopState_loopIdx stamps hne, hmax3, hcontains]
      rfl

/-- Claim C4 witness: the amended characterization evaluated on a
marker-free list, on a single matched pair, and on a lone unmatched L3
Start. -/
theorem claim_C4_witness :
    deriveLoopState [⟨none, "Z1", 0, 0⟩] = ⟨1, false, []⟩ ∧
    (deriveLoopState [⟨none, "L1 Start", 0, 0⟩, ⟨none, "L1 Stop", 4, 0⟩]).loopOn = false ∧
    (deriveLoopState [⟨none, "L1 Start", 0, 0⟩, ⟨none, "L1 Stop", 4, 0⟩]).loopIdx =
      maxStartOf [⟨none, "L1 Start", 0, 0⟩, ⟨none, "L1 Stop", 4, 0⟩] + 1 ∧
    (deriveLoopState [⟨none, "L3 Start", 0, 0⟩]).loopOn = true ∧
    (deriveLoopState [⟨none, "L3 Start", 0, 0⟩]).loopIdx = 3 := by
  refine ⟨?_, ?_, ?_, ?_, ?_⟩
  · exact (claim_C4_amended [⟨none, "Z1", 0, 0⟩]).1 (by decide)
  · exact ((claim_C4_amended [⟨none, "L1 Start", 0, 0⟩, ⟨none, "L1 Stop", 4, 0⟩]).2.2.1
      (by decide) (by decide)).1
  · exact ((claim_C4_amended [⟨none, "L1 Start", 0, 0⟩, ⟨none, "L1 Stop", 4, 0⟩]).2.2.1
      (by decide) (by decide)).2
  · exact ((claim_C4_amended [⟨none, "L3 Start", 0, 0⟩]).2.2.2 ⟨none, "L3 Start", 0, 0⟩
      rfl (by decide) (by decide) (by decide)).1
  · exact ((claim_C4_amended [⟨none, "L3 Start", 0, 0⟩]).2.2.2 ⟨none, "L3 Start", 0, 0⟩
      rfl (by decide) (by decide) (by decide)).2

/-- Claim C5 counterexample: changing the letter case of a marker changes
the derived result, because the marker regexes carry no ignore-case flag;
the lowercase variant is not recognized as a Start marker at all. -/
theorem claim_C5_counterexample :
    deriveLoopState [⟨none, "l1 start", 0, 0⟩] ≠
      deriveLoopState [⟨none, "L1 Start", 0, 0⟩] := by
  decide

/-- Claim C5, amended: marker recognition is case-sensitive.  A recognized
Start or Stop marker always begins with an uppercase L, the exact-case
markers are recognized while case-changed variants are not, and a
case-changed marker is treated as an ordinary stamp name by the deriver. -/
theorem claim_C5_amended :
    (∀ (name : String) (n : Nat), rexStart name = some n →
      name.data.head? = some 'L') ∧
    (∀ (name : String) (n : Nat), rexStop name = some n →
      name.data.head? = some 'L') ∧
    rexStart "L3 Start" = some 3 ∧ rexStart "l3 start" = none ∧
    rexStart "L3 start" = none ∧ rexStop "L3 Stop" = some 3 ∧
    rexStop "l3 stop" = none ∧
    deriveLoopState [⟨none, "l1 start", 0, 0⟩] = ⟨1, false, []⟩ ∧
    deriveLoopState [⟨none, "L1 Start", 0, 0⟩] = ⟨1, true, []⟩ := by
  have hhead : ∀ (kw : List Char) (name : String) (n : Nat),
      parseMarker kw name.data = some n → name.data.head? = some 'L' := by
    intro kw name n hsome
    cases hd : name.data with
    | nil =>
      rw [hd] at hsome
      simp [parseMarker] at hsome
    | cons c rest =>
      rw [hd] at hsome
      by_cases hc : c = 'L'
      · rw [hc]
        rfl
      · rw [parseMarker, if_neg hc] at hsome
        cases hsome
  refine ⟨fun name n h => hhead _ name n h, fun name n h => hhead _ name n h,
    by decide, by decide, by decide, by decide, by decide, by decide, by decide⟩

/-- Claim C5 witness: the head-character facts of the amended theorem at the
concrete markers L2 Start and L2 Stop. -/
theorem claim_C5_witness :
    "L2 Start".data.head? = some 'L' ∧ "L2 Stop".data.head? = some 'L' := by
  refine ⟨?_, ?_⟩
  · exact claim_C5_amended.1 "L2 Start" 2 (by decide)
  · exact claim_C5_amended.2.1 "L2 Stop" 2 (by decide)

/-- The stamp revival throws as soon as the parsed array contains a null. -/
lemma mapStampList_null_mem (xs : List Json) (h : Json.null ∈ xs) :
    mapStampList xs = none := by
  induction xs with
  | nil => cases h
  | cons y ys ih =>
    rcases List.mem_cons.mp h with rfl | hmem
    · rfl
    · rw [mapStampList, ih hmem]
      cases mapStampJs y <;> rfl

/-- Claim C9: every loader of the local durable store is a total function
that returns the empty default on a missing entry, on an unparsable entry,
and on every parsed shape whose processing would throw in the original
(a non-array stamp entry, a null stamp element, a non-iterable processed
entry); totality is by construction, so no read ever fails. -/
theorem claim_C9_loaders :
    (loadOutboxRaw none = Json.arr [] ∧ loadIndexRaw none = Json.obj [] ∧
      loadStampsRaw none = Json.arr [] ∧ loadProcessedRaw none = []) ∧
    (∀ s : String, parseJson s = none →
      loadOutboxRaw (some s) = Json.arr [] ∧ loadIndexRaw (some s) = Json.obj [] ∧
      loadStampsRaw (some s) = Json.arr [] ∧ loadProcessedRaw (some s) = []) ∧
    (∀ (s : String) (j : Json), parseJson s = some j →
      (∀ xs, j ≠ Json.arr xs) → loadStampsRaw (some s) = Json.arr []) ∧
    (∀ (s : String) (xs : List Json), parseJson s = some (Json.arr xs) →
      Json.null ∈ xs → loadStampsRaw (some s) = Json.arr []) ∧
    (∀ (s : String) (j : Json), parseJson s = some j → jsNewSet j = none →
      loadProcessedRaw (some s) = []) := by
  have hempty : parseJson "" = none := rfl
  refine ⟨⟨rfl, rfl, rfl, rfl⟩, ?_, ?_, ?_, ?_⟩
  · intro s hparse
    by_cases hs : s = ""
    · subst hs
      exact ⟨rfl, rfl, rfl, rfl⟩
    · refine ⟨?_, ?_, ?_, ?_⟩
      · simp only [loadOutboxRaw, if_neg hs, hparse]
      · simp only [loadIndexRaw, if_neg hs, hparse]
      · simp only [loadStampsRaw, if_neg hs, hparse]
      · simp only [loadProcessedRaw, if_neg hs, hparse]
  · intro s j hparse hnotarr
    by_cases hs : s = ""
    · subst hs
      rw [hempty] at hparse
      cases hparse
    · cases j with
      | arr xs => exact absurd rfl (hnotarr xs)
      | null => simp only [loadStampsRaw, if_neg hs, hparse]
      | bool b => simp only [loadStampsRaw, if_neg hs, hparse]
      | num n => simp only [loadStampsRaw, if_neg hs, hparse]
      | str s2 => simp only [loadStampsRaw, if_neg hs, hparse]
      | obj fs => simp only [loadStampsRaw, if_neg hs, hparse]
  · intro s xs hparse hmem
    by_cases hs : s = ""
    · subst hs
      rw [hempty] at hparse
      cases hparse
    · simp only [loadStampsRaw, if_neg hs, hparse, mapStampList_null_mem xs hmem]
  · intro s j hparse hset
    by_cases hs : s = ""
    · subst hs
      rw [hempty] at hparse
      cases hparse
    · simp only [loadProcessedRaw, if_neg hs, hparse, hset]

/-- Claim C9 witness: defaults on a concrete unparsable entry, a parsed
non-array stamp entry, a null stamp element, and a non-iterable processed
entry, through the theorem. -/
theorem claim_C9_witness :
    loadOutboxRaw (some "not json") = Json.arr [] ∧
    loadStampsRaw (some "5") = Json.arr [] ∧
    loadStampsRaw (some "[null]") = Json.arr [] ∧
    loadProcessedRaw (some "true") = [] := by
  refine ⟨?_, ?_, ?_, ?_⟩
  · exact (claim_C9_loaders.2.1 "not json" rfl).1
  · exact claim_C9_loaders.2.2.1 "5" (Json.num 5) rfl
      (fun xs h => Json.noConfusion h)
  · exact claim_C9_loaders.2.2.2.1 "[null]" [Json.null] rfl
      (List.mem_singleton.mpr rfl)
  · exact claim_C9_loaders.2.2.2.2 "true" (Json.bool true) rfl rfl

/-! ## Coalescing characterization (claim C3) -/

lemma alistGet_set_self {α : Type} (m : List (String × α)) (k : String) (v : α) :
    alistGet (alistSet m k v) k = some v := by
  induction m with
  | nil => simp [alistSet, alistGet]
  | cons kv rest ih =>
    by_cases h : kv.1 = k
    · simp [alistSet, alistGet, h]
    · simp only [alistSet, alistGet]
      rw [if_neg h, alistGet, if_neg h]
      exact ih

lemma alistGet_set_ne {α : Type} (m : List (String × α)) (k k2 : String) (v : α)
    (h : k ≠ k2) : alistGet (alistSet m k v) k2 = alistGet m k2 := by
  induction m with
  | nil => simp [alistSet, alistGet, h]
  | cons kv rest ih =>
    by_cases hk : kv.1 = k
    · have hkv2 : ¬ kv.1 = k2 := by rw [hk]; exact h
      simp [alistSet, alistGet, hk, h, hkv2]
    · by_cases h2 : kv.1 = k2
      · simp [alistSet, alistGet, hk, h2, Ne.symm h]
      · simp [alistSet, alistGet, hk, h2, ih]

/-- Extending a bucket appends the kind-filtered operations to each field. -/
lemma extendGroup_eq (l : List ROp) : ∀ g : SessionGroup,
    extendGroup g l =
      ⟨g.creates ++ l.filter (fun r => r.kind == OpKind.create),
       g.updates ++ l.filter (fun r => r.kind == OpKind.update),
       g.finishes ++ l.filter (fun r => r.kind == OpKind.finish)⟩ := by
  induction l with
  | nil => intro g; simp [extendGroup]
  | cons r rest ih =>
    intro g
    have hstep : extendGroup g (r :: rest) = extendGroup (groupInsert g r) rest := rfl
    rw [hstep, ih (groupInsert g r)]
    cases hk : r.kind <;>
      simp [groupInsert, hk, List.filter_cons]

/-- The grouping fold, looked up at one session id. -/
lemma buildAux_get (ops : List Op) : ∀ (m : List (String × SessionGroup)) (sid : String),
    alistGet
      (ops.foldl
        (fun m op =>
          match op with
          | Op.touch _ => m
          | Op.reg o =>
            alistSet m o.sessionId
              (groupInsert ((alistGet m o.sessionId).getD emptyGroup) o))
        m) sid =
      (match alistGet m sid with
       | some g => some (extendGroup g (regOps ops sid))
       | none =>
         if regOps ops sid = [] then none
         else some (extendGroup emptyGroup (regOps ops sid))) := by
  induction ops with
  | nil =>
    intro m sid
    cases h : alistGet m sid <;> simp [h, regOps, extendGroup]
  | cons op rest ih =>
    intro m sid
    cases op with
    | touch ts =>
      rw [List.foldl_cons]
      have hreg : regOps (Op.touch ts :: rest) sid = regOps rest sid := rfl
      rw [hreg]
      exact ih m sid
    | reg o =>
      rw [List.foldl_cons]
      by_cases h : o.sessionId = sid
      · have hreg : regOps (Op.reg o :: rest) sid = o :: regOps rest sid := by
          simp [regOps, List.filterMap_cons, h]
        rw [hreg]
        rw [ih (alistSet m o.sessionId
          (groupInsert ((alistGet m o.sessionId).getD emptyGroup) o)) sid]
        rw [h, alistGet_set_self]
        cases hm : alistGet m sid with
        | none => simp [extendGroup]
        | some g => simp [extendGroup]
      · have hreg : regOps (Op.reg o :: rest) sid = regOps rest sid := by
          simp [regOps, List.filterMap_cons, h]
        rw [hreg]
        rw [ih (alistSet m o.sessionId
          (groupInsert ((alistGet m o.sessionId).getD emptyGroup) o)) sid]
        rw [alistGet_set_ne _ _ _ _ h]

/-- Finding a session in the mapped plan is looking it up in the grouped
association list. -/
lemma find?_map_alist (l : List (String × SessionGroup)) (sid : String) :
    ((l.map fun kv =>
        ({ sessionId := kv.1, create := kv.2.creates.head?,
           update := kv.2.updates.getLast?,
           finish := kv.2.finishes.getLast? } : Coalesced)).find?
      (fun c => c.sessionId == sid)) =
    (alistGet l sid).map (fun g =>
      ({ sessionId := sid, create := g.creates.head?,
         update := g.updates.getLast?,
         finish := g.finishes.getLast? } : Coalesced)) := by
  induction l with
  | nil => rfl
  | cons kv rest ih =>
    rw [List.map_cons]
    by_cases h : kv.1 = sid
    · rw [List.find?_cons_of_pos _ (by simp [h]), alistGet, if_pos h, h]
      rfl
    · rw [List.find?_cons_of_neg _ (by simp [h]), alistGet, if_neg h]
      exact ih

/-! ## Provenance of coalesced operations -/

lemma head?_mem {α : Type} {l : List α} {a : α} (h : l.head? = some a) : a ∈ l := by
  cases l with
  | nil => cases h
  | cons x xs =>
    rw [List.head?_cons] at h
    cases h
    exact List.mem_cons_self _ _

lemma alistSet_mem {α : Type} (m : List (String × α)) (k : String) (v : α) :
    ∀ kv ∈ alistSet m k v, kv = (k, v) ∨ kv ∈ m := by
  induction m with
  | nil =>
    intro kv hkv
    simp [alistSet] at hkv
    exact Or.inl hkv
  | cons kv0 rest ih =>
    intro kv hkv
    by_cases hk : kv0.1 = k
    · rw [alistSet, if_pos hk] at hkv
      rcases List.mem_cons.mp hkv with rfl | hmem
      · exact Or.inl rfl
      · exact Or.inr (List.mem_cons_of_mem _ hmem)
    · rw [alistSet, if_neg hk] at hkv
      rcases List.mem_cons.mp hkv with rfl | hmem
      · exact Or.inr (List.mem_cons_self _ _)
      · rcases ih kv hmem with h1 | h1
        · exact Or.inl h1
        · exact Or.inr (List.mem_cons_of_mem _ h1)

lemma alistGet_mem {α : Type} (m : List (String × α)) (k : String) (v : α)
    (h : alistGet m k = some v) : (k, v) ∈ m := by
  induction m with
  | nil => cases h
  | cons kv rest ih =>
    by_cases hk : kv.1 = k
    · rw [alistGet, if_pos hk] at h
      cases h
      rcases kv with ⟨k1, v1⟩
      cases hk
      exact List.mem_cons_self _ _
    · rw [alistGet, if_neg hk] at h
      exact List.mem_cons_of_mem _ (ih h)

lemma groupInsert_mem (g : SessionGroup) (o r : ROp) (h : rInGroup r (groupInsert g o)) :
    rInGroup r g ∨ r = o := by
  cases hk : o.kind <;>
    · rw [groupInsert, hk] at h
      rcases h with h1 | h1 | h1 <;>
        first
        | (rcases List.mem_append.mp h1 with h2 | h2
           · exact Or.inl (by unfold rInGroup; tauto)
           · exact Or.inr (List.mem_singleton.mp h2))
        | exact Or.inl (by unfold rInGroup; tauto)

/-- Every operation held in a bucket of the grouping fold comes from the
initial map or from the folded operations. -/
lemma buildAux_mem (l : List Op) :
    ∀ (m : List (String × SessionGroup)) (P : ROp → Prop),
      (∀ kv ∈ m, ∀ r, rInGroup r kv.2 → P r) →
      (∀ o : ROp, Op.reg o ∈ l → P o) →
      ∀ kv ∈ l.foldl
        (fun m op =>
          match op with
          | Op.touch _ => m
          | Op.reg o =>
            alistSet m o.sessionId
              (groupInsert ((alistGet m o.sessionId).getD emptyGroup) o))
        m, ∀ r, rInGroup r kv.2 → P r := by
  induction l with
  | nil =>
    intro m P hm _ kv hkv
    exact hm kv hkv
  | cons op rest ih =>
    intro m P hm hl kv hkv
    cases op with
    | touch ts =>
      rw [List.foldl_cons] at hkv
      exact ih m P hm (fun o ho => hl o (List.mem_cons_of_mem _ ho)) kv hkv
    | reg o =>
      rw [List.foldl_cons] at hkv
      refine ih _ P ?_ (fun o2 ho2 => hl o2 (List.mem_cons_of_mem _ ho2)) kv hkv
      intro kv2 hkv2 r hr
      rcases alistSet_mem _ _ _ kv2 hkv2 with rfl | hmem
      · rcases groupInsert_mem _ _ _ hr with h1 | rfl
        · cases hget : alistGet m o.sessionId with
          | none =>
            rw [hget] at h1
            rcases h1 with h2 | h2 | h2 <;> cases h2
          | some g =>
            rw [hget] at h1
            exact hm (o.sessionId, g) (alistGet_mem _ _ _ hget) r h1
        · exact hl r (List.mem_cons_self _ _)
      · exact hm kv2 hmem r hr

/-- The coalesced plan only references operations of the given outbox. -/
lemma coalesce_mem_ops (ops : List Op) (item : Coalesced)
    (hitem : item ∈ groupAndCoalesce ops) :
    (∀ r, item.create = some r → Op.reg r ∈ ops) ∧
    (∀ r, item.update = some r → Op.reg r ∈ ops) ∧
    (∀ r, item.finish = some r → Op.reg r ∈ ops) := by
  unfold groupAndCoalesce buildGroups at hitem
  obtain ⟨kv, hkv, heq⟩ := List.mem_map.mp hitem
  have hg := buildAux_mem ops [] (fun r => Op.reg r ∈ ops)
    (by intro kv2 hkv2; cases hkv2) (fun o ho => ho) kv hkv
  subst heq
  refine ⟨?_, ?_, ?_⟩
  · intro r hr
    exact hg r (Or.inl (head?_mem hr))
  · intro r hr
    exact hg r (Or.inr (Or.inl (List.mem_of_getLast?_eq_some hr)))
  · intro r hr
    exact hg r (Or.inr (Or.inr (List.mem_of_getLast?_eq_some hr)))

/-- Claim C3: for every outbox, coalescing groups the non-touch operations
by session id and keeps, per session, exactly the first create, the last
update, and the last finish (absent fields are null); a session appears in
the plan exactly when it has a replayable operation.  In particular the
outbox [create op1, update op2, update op3] of one session coalesces to the
group with create op1, update op3, and no finish. -/
theorem claim_C3_coalesce :
    (∀ (ops : List Op) (sid : String),
      coalescedFor ops sid =
        (if regOps ops sid = [] then none
         else some
          { sessionId := sid
            create := ((regOps ops sid).filter (fun r => r.kind == OpKind.create)).head?
            update := ((regOps ops sid).filter (fun r => r.kind == OpKind.update)).getLast?
            finish := ((regOps ops sid).filter (fun r => r.kind == OpKind.finish)).getLast? })) ∧
    groupAndCoalesce
      [Op.reg ⟨"op1", OpKind.create, "s1", payA⟩,
       Op.reg ⟨"op2", OpKind.update, "s1", payA⟩,
       Op.reg ⟨"op3", OpKind.update, "s1", payB⟩] =
      [{ sessionId := "s1", create := some ⟨"op1", OpKind.create, "s1", payA⟩,
         update := some ⟨"op3", OpKind.update, "s1", payB⟩, finish := none }] := by
  constructor
  · intro ops sid
    unfold coalescedFor groupAndCoalesce buildGroups
    rw [find?_map_alist, buildAux_get ops [] sid]
    cases hreg : regOps ops sid with
    | nil => rfl
    | cons r rest =>
      rw [show alistGet ([] : List (String × SessionGroup)) sid = none from rfl]
      rw [if_neg (by simp), if_neg (by simp), extendGroup_eq]
      simp [emptyGroup]
  · decide

/-! ## Flush step lemmas -/

lemma allOk_createRes (f : Nat → String) (n : Nat) :
    (allOk f).createRes n = Except.ok (f n) := rfl

lemma allOk_updateRes (f : Nat → String) (n : Nat) :
    (allOk f).updateRes n = Except.ok () := rfl

lemma bumpCreate_remaining (c : FlushCtx) (cop : ROp) :
    (bumpCreate c cop).remaining = c.remaining := rfl

lemma migrateCreate_remaining (c : FlushCtx) (localId rid : String) (cop : ROp) :
    (migrateCreate c localId rid cop).remaining = c.remaining := by
  simp only [migrateCreate]
  split <;> split <;> rfl

/-- A finish step whose operation is absent or processed changes nothing. -/
lemma runFinishStep_skip (rem : Remote) (retained : List Op) (fin : Option ROp)
    (targetId : String) (c : FlushCtx)
    (h : ∀ r, fin = some r → r.opId ∈ c.processed) :
    runFinishStep rem retained fin targetId c = c := by
  cases fin with
  | none => rfl
  | some fop =>
    simp only [runFinishStep]
    rw [if_pos (h fop rfl)]

/-- An update-then-finish step whose operations are absent or processed
changes nothing. -/
lemma runUpdateStep_skip (rem : Remote) (retained : List Op) (upd fin : Option ROp)
    (targetId : String) (c : FlushCtx)
    (hu : ∀ r, upd = some r → r.opId ∈ c.processed)
    (hf : ∀ r, fin = some r → r.opId ∈ c.processed) :
    runUpdateStep rem retained upd fin targetId c = c := by
  cases upd with
  | none => exact runFinishStep_skip rem retained fin targetId c hf
  | some uop =>
    simp only [runUpdateStep]
    rw [if_pos (hu uop rfl)]
    exact runFinishStep_skip rem retained fin targetId c hf

/-- A group whose three coalesced operations are all processed changes
nothing and attempts no remote call. -/
lemma runGroup_skip (rem : Remote) (ops : List Op) (item : Coalesced) (c : FlushCtx)
    (hc : ∀ r, item.create = some r → r.opId ∈ c.processed)
    (hu : ∀ r, item.update = some r → r.opId ∈ c.processed)
    (hf : ∀ r, item.finish = some r → r.opId ∈ c.processed) :
    runGroup rem ops item c = c := by
  simp only [runGroup]
  split
  · next cop hcr =>
    rw [if_pos (hc cop hcr)]
    exact runUpdateStep_skip _ _ _ _ _ _ hu hf
  · exact runUpdateStep_skip _ _ _ _ _ _ hu hf

/-- Folding skip-only groups changes nothing. -/
lemma foldl_runGroup_skip (rem : Remote) (ops : List Op) (plan : List Coalesced) :
    ∀ c : FlushCtx,
      (∀ item ∈ plan,
        (∀ r, item.create = some r → r.opId ∈ c.processed) ∧
        (∀ r, item.update = some r → r.opId ∈ c.processed) ∧
        (∀ r, item.finish = some r → r.opId ∈ c.processed)) →
      plan.foldl (fun acc item => runGroup rem ops item acc) c = c := by
  induction plan with
  | nil => intro c _; rfl
  | cons item rest ih =>
    intro c hall
    rw [List.foldl_cons]
    have hitem := hall item (List.mem_cons_self _ _)
    rw [runGroup_skip rem ops item c hitem.1 hitem.2.1 hitem.2.2]
    exact ih c (fun it hit => hall it (List.mem_cons_of_mem _ hit))

/-- A flush over an empty outbox returns immediately. -/
lemma flush_empty (rem : Remote) (st : Store) (h : st.outbox = []) :
    flush rem st = (st, []) := by
  simp only [flush]
  rw [if_pos (by rw [h]; rfl)]

/-- The finish step never shrinks the call trace and, on success paths,
leaves the retained operations unchanged. -/
lemma runFinishStep_allOk_remaining (f : Nat → String) (retained : List Op)
    (fin : Option ROp) (targetId : String) (c : FlushCtx) :
    (runFinishStep (allOk f) retained fin targetId c).remaining = c.remaining := by
  cases fin with
  | none => rfl
  | some fop =>
    by_cases hp : fop.opId ∈ c.processed
    · simp only [runFinishStep]
      rw [if_pos hp]
    · simp only [runFinishStep, allOk_updateRes]
      rw [if_neg hp]

lemma runUpdateStep_allOk_remaining (f : Nat → String) (retained : List Op)
    (upd fin : Option ROp) (targetId : String) (c : FlushCtx) :
    (runUpdateStep (allOk f) retained upd fin targetId c).remaining = c.remaining := by
  cases upd with
  | none => exact runFinishStep_allOk_remaining f retained fin targetId c
  | some uop =>
    by_cases hp : uop.opId ∈ c.processed
    · simp only [runUpdateStep]
      rw [if_pos hp]
      exact runFinishStep_allOk_remaining f retained fin targetId c
    · simp only [runUpdateStep, allOk_updateRes]
      rw [if_neg hp]
      rw [runFinishStep_allOk_remaining f retained fin targetId]

lemma runGroup_allOk_remaining (f : Nat → String) (ops : List Op)
    (item : Coalesced) (c : FlushCtx) :
    (runGroup (allOk f) ops item c).remaining = c.remaining := by
  simp only [runGroup]
  split
  · next cop hcr =>
    by_cases hp : cop.opId ∈ c.processed
    · rw [if_pos hp, runUpdateStep_allOk_remaining]
    · rw [if_neg hp]
      simp only [allOk_createRes]
      rw [runUpdateStep_allOk_remaining, migrateCreate_remaining, bumpCreate_remaining]
  · rw [runUpdateStep_allOk_remaining]

lemma foldl_runGroup_allOk_remaining (f : Nat → String) (ops : List Op)
    (plan : List Coalesced) :
    ∀ c : FlushCtx,
      (plan.foldl (fun acc item => runGroup (allOk f) ops item acc) c).remaining =
        c.remaining := by
  induction plan with
  | nil => intro c; rfl
  | cons item rest ih =>
    intro c
    rw [List.foldl_cons, ih, runGroup_allOk_remaining]

/-- The flag-reporting finish step computes the same context as the plain
finish step. -/
lemma runFinishStepF_fst (rem : Remote) (retained : List Op) (fin : Option ROp)
    (targetId : String) (c : FlushCtx) :
    (runFinishStepF rem retained fin targetId c).1 =
      runFinishStep rem retained fin targetId c := by
  cases fin with
  | none => rfl
  | some fop =>
    by_cases hp : fop.opId ∈ c.processed
    · simp only [runFinishStepF, runFinishStep]
      rw [if_pos hp, if_pos hp]
    · simp only [runFinishStepF, runFinishStep]
      rw [if_neg hp, if_neg hp]
      cases hr : rem.updateRes c.nUpdate <;> rfl

/-- The flag-reporting update step computes the same context as the plain
update step. -/
lemma runUpdateStepF_fst (rem : Remote) (retained : List Op) (upd fin : Option ROp)
    (targetId : String) (c : FlushCtx) :
    (runUpdateStepF rem retained upd fin targetId c).1 =
      runUpdateStep rem retained upd fin targetId c := by
  cases upd with
  | none => exact runFinishStepF_fst rem retained fin targetId c
  | some uop =>
    by_cases hp : uop.opId ∈ c.processed
    · simp only [runUpdateStepF, runUpdateStep]
      rw [if_pos hp, if_pos hp]
      exact runFinishStepF_fst rem retained fin targetId c
    · simp only [runUpdateStepF, runUpdateStep]
      rw [if_neg hp, if_neg hp]
      cases hr : rem.updateRes c.nUpdate with
      | error e => rfl
      | ok v => exact runFinishStepF_fst rem retained fin targetId _

/-- The flag-reporting group step computes the same context as the plain
group step, so the reported flag is the failure of the very run the flush
loop performs. -/
lemma runGroupF_fst (rem : Remote) (ops : List Op) (item : Coalesced)
    (c : FlushCtx) :
    (runGroupF rem ops item c).1 = runGroup rem ops item c := by
  simp only [runGroupF, runGroup]
  split
  · next cop hcr =>
    by_cases hp : cop.opId ∈ c.processed
    · simp only [if_pos hp]
      exact runUpdateStepF_fst rem _ _ _ _ c
    · simp only [if_neg hp]
      cases hr : rem.createRes c.nCreate with
      | error e => rfl
      | ok rid => exact runUpdateStepF_fst rem _ _ _ _ _
  · exact runUpdateStepF_fst rem _ _ _ _ c

/-- The finish step appends the retained block exactly when its call
throws. -/
lemma runFinishStepF_remaining (rem : Remote) (retained : List Op)
    (fin : Option ROp) (targetId : String) (c : FlushCtx) :
    (runFinishStepF rem retained fin targetId c).1.remaining =
      c.remaining ++
        (if (runFinishStepF rem retained fin targetId c).2 = true then retained
         else []) := by
  cases fin with
  | none => simp [runFinishStepF]
  | some fop =>
    by_cases hp : fop.opId ∈ c.processed
    · simp [runFinishStepF, hp]
    · simp only [runFinishStepF]
      rw [if_neg hp]
      cases hr : rem.updateRes c.nUpdate with
      | error e => simp
      | ok v => simp

/-- The update-then-finish step appends the retained block exactly when one
of its calls throws. -/
lemma runUpdateStepF_remaining (rem : Remote) (retained : List Op)
    (upd fin : Option ROp) (targetId : String) (c : FlushCtx) :
    (runUpdateStepF rem retained upd fin targetId c).1.remaining =
      c.remaining ++
        (if (runUpdateStepF rem retained upd fin targetId c).2 = true then retained
         else []) := by
  cases upd with
  | none => exact runFinishStepF_remaining rem retained fin targetId c
  | some uop =>
    by_cases hp : uop.opId ∈ c.processed
    · simp only [runUpdateStepF]
      rw [if_pos hp]
      exact runFinishStepF_remaining rem retained fin targetId c
    · simp only [runUpdateStepF]
      rw [if_neg hp]
      cases hr : rem.updateRes c.nUpdate with
      | error e => simp
      | ok v => rw [runFinishStepF_remaining]

/-- One group appends exactly its original non-touch operations, verbatim,
when one of its remote calls throws, and appends nothing otherwise. -/
lemma runGroupF_remaining (rem : Remote) (ops : List Op) (item : Coalesced)
    (c : FlushCtx) :
    (runGroupF rem ops item c).1.remaining =
      c.remaining ++
        (if (runGroupF rem ops item c).2 = true
         then retainedFor ops item.sessionId else []) := by
  simp only [runGroupF]
  split
  · next cop hcr =>
    by_cases hp : cop.opId ∈ c.processed
    · simp only [if_pos hp]
      exact runUpdateStepF_remaining rem _ _ _ _ c
    · simp only [if_neg hp]
      cases hr : rem.createRes c.nCreate with
      | error e => simp [bumpCreate_remaining]
      | ok rid =>
        rw [runUpdateStepF_remaining, migrateCreate_remaining, bumpCreate_remaining]
  · exact runUpdateStepF_remaining rem _ _ _ _ c

/-- The claim-facing form of the group-level retention law: the flush loop
step keeps the retained list unchanged when the group succeeds and appends
the group's original non-touch operations when a call of the group
throws. -/
lemma runGroup_remaining_eq (rem : Remote) (ops : List Op) (item : Coalesced)
    (c : FlushCtx) :
    (runGroup rem ops item c).remaining =
      c.remaining ++
        (if groupFails rem ops item c = true
         then retainedFor ops item.sessionId else []) := by
  rw [← runGroupF_fst]
  exact runGroupF_remaining rem ops item c

/-! ## Processed-set growth through the flush loop -/

lemma rememberOp_mono (l : List String) (x y : String) (h : x ∈ l) :
    x ∈ rememberOp l y := by
  unfold rememberOp
  split
  · exact h
  · split
    · exact h
    · exact List.mem_append_left _ h

lemma rememberOp_self (l : List String) (y : String) (hy : y ≠ "") :
    y ∈ rememberOp l y := by
  unfold rememberOp
  rw [if_neg hy]
  split
  · next h => exact h
  · exact List.mem_append_right _ (List.mem_singleton.mpr rfl)

lemma runFinishStep_processed_mono (rem : Remote) (retained : List Op)
    (fin : Option ROp) (targetId : String) (c : FlushCtx) (x : String)
    (h : x ∈ c.processed) :
    x ∈ (runFinishStep rem retained fin targetId c).processed := by
  cases fin with
  | none => exact h
  | some fop =>
    by_cases hp : fop.opId ∈ c.processed
    · simp only [runFinishStep]
      rw [if_pos hp]
      exact h
    · simp only [runFinishStep]
      rw [if_neg hp]
      cases hr : rem.updateRes c.nUpdate with
      | error e => exact h
      | ok v => exact rememberOp_mono _ _ _ h

lemma runUpdateStep_processed_mono (rem : Remote) (retained : List Op)
    (upd fin : Option ROp) (targetId : String) (c : FlushCtx) (x : String)
    (h : x ∈ c.processed) :
    x ∈ (runUpdateStep rem retained upd fin targetId c).processed := by
  cases upd with
  | none => exact runFinishStep_processed_mono rem retained fin targetId c x h
  | some uop =>
    by_cases hp : uop.opId ∈ c.processed
    · simp only [runUpdateStep]
      rw [if_pos hp]
      exact runFinishStep_processed_mono rem retained fin targetId c x h
    · simp only [runUpdateStep]
      rw [if_neg hp]
      cases hr : rem.updateRes c.nUpdate with
      | error e => exact h
      | ok v =>
        exact runFinishStep_processed_mono rem retained fin targetId _ x
          (rememberOp_mono _ _ _ h)

lemma bumpCreate_processed (c : FlushCtx) (cop : ROp) :
    (bumpCreate c cop).processed = c.processed := rfl

lemma migrateCreate_processed (c : FlushCtx) (localId rid : String) (cop : ROp) :
    (migrateCreate c localId rid cop).processed = rememberOp c.processed cop.opId := by
  simp only [migrateCreate]
  split <;> split <;> rfl

lemma runGroup_processed_mono (rem : Remote) (ops : List Op) (item : Coalesced)
    (c : FlushCtx) (x : String) (h : x ∈ c.processed) :
    x ∈ (runGroup rem ops item c).processed := by
  simp only [runGroup]
  split
  · next cop hcr =>
    by_cases hp : cop.opId ∈ c.processed
    · simp only [if_pos hp]
      exact runUpdateStep_processed_mono rem _ _ _ _ c x h
    · simp only [if_neg hp]
      cases hr : rem.createRes c.nCreate with
      | error e => exact h
      | ok rid =>
        refine runUpdateStep_processed_mono rem _ _ _ _ _ x ?_
        rw [migrateCreate_processed, bumpCreate_processed]
        exact rememberOp_mono _ _ _ h
  · exact runUpdateStep_processed_mono rem _ _ _ _ c x h

/-- A finish step that does not throw leaves its operation marked
processed. -/
lemma runFinishStepF_success (rem : Remote) (retained : List Op)
    (fin : Option ROp) (targetId : String) (c : FlushCtx)
    (hflag : (runFinishStepF rem retained fin targetId c).2 = false) :
    ∀ r : ROp, fin = some r → r.opId ≠ "" →
      r.opId ∈ (runFinishStepF rem retained fin targetId c).1.processed := by
  intro r hfin hne
  subst hfin
  by_cases hp : r.opId ∈ c.processed
  · simp only [runFinishStepF]
    rw [if_pos hp]
    exact hp
  · simp only [runFinishStepF] at hflag ⊢
    rw [if_neg hp] at hflag ⊢
    cases hr : rem.updateRes c.nUpdate with
    | error e =>
      rw [hr] at hflag
      simp at hflag
    | ok v =>
      exact rememberOp_self _ _ hne

/-- An update-then-finish step that does not throw leaves both its
operations marked processed. -/
lemma runUpdateStepF_success (rem : Remote) (retained : List Op)
    (upd fin : Option ROp) (targetId : String) (c : FlushCtx)
    (hflag : (runUpdateStepF rem retained upd fin targetId c).2 = false) :
    (∀ r : ROp, upd = some r → r.opId ≠ "" →
      r.opId ∈ (runUpdateStepF rem retained upd fin targetId c).1.processed) ∧
    (∀ r : ROp, fin = some r → r.opId ≠ "" →
      r.opId ∈ (runUpdateStepF rem retained upd fin targetId c).1.processed) := by
  cases upd with
  | none =>
    refine ⟨(fun r hr => nomatch hr), ?_⟩
    exact runFinishStepF_success rem retained fin targetId c hflag
  | some uop =>
    by_cases hp : uop.opId ∈ c.processed
    · simp only [runUpdateStepF] at hflag ⊢
      rw [if_pos hp] at hflag ⊢
      refine ⟨?_, runFinishStepF_success rem retained fin targetId c hflag⟩
      intro r hr hne
      cases hr
      rw [runFinishStepF_fst]
      exact runFinishStep_processed_mono rem retained fin targetId c _ hp
    · simp only [runUpdateStepF] at hflag ⊢
      rw [if_neg hp] at hflag ⊢
      cases hr : rem.updateRes c.nUpdate with
      | error e =>
        rw [hr] at hflag
        simp at hflag
      | ok v =>
        rw [hr] at hflag
        refine ⟨?_, runFinishStepF_success rem retained fin targetId _ hflag⟩
        intro r hru hne
        cases hru
        have hgoal : uop.opId ∈ (runFinishStepF rem retained fin targetId
            { c with
              processed := rememberOp c.processed uop.opId
              nUpdate := c.nUpdate + 1
              calls := c.calls ++ [RemoteCall.updateDocById targetId
                (rehydrateTimestampsInPayload uop.payload)] }).1.processed := by
          rw [runFinishStepF_fst]
          exact runFinishStep_processed_mono rem retained fin targetId _ _
            (rememberOp_self _ _ hne)
        exact hgoal

/-- A group none of whose remote calls throws leaves all its coalesced
operations marked processed. -/
lemma runGroupF_success (rem : Remote) (ops : List Op) (item : Coalesced)
    (c : FlushCtx) (hflag : (runGroupF rem ops item c).2 = false) :
    ∀ r : ROp,
      (item.create = some r ∨ item.update = some r ∨ item.finish = some r) →
      r.opId ≠ "" → r.opId ∈ (runGroupF rem ops item c).1.processed := by
  simp only [runGroupF] at hflag ⊢
  intro r hcase hne
  rcases hcase with hcr | hcase2
  · rw [hcr] at hflag ⊢
    by_cases hp : r.opId ∈ c.processed
    · simp only [if_pos hp] at hflag ⊢
      rw [runUpdateStepF_fst]
      exact runUpdateStep_processed_mono rem _ _ _ _ c _ hp
    · simp only [if_neg hp] at hflag ⊢
      cases hcres : rem.createRes c.nCreate with
      | error e =>
        rw [hcres] at hflag
        simp at hflag
      | ok rid =>
        rw [hcres] at hflag
        have hgoal : r.opId ∈ (runUpdateStepF rem (retainedFor ops item.sessionId)
            item.update item.finish rid
            (migrateCreate (bumpCreate c r) item.sessionId rid r)).1.processed := by
          rw [runUpdateStepF_fst]
          refine runUpdateStep_processed_mono rem _ _ _ _ _ _ ?_
          rw [migrateCreate_processed, bumpCreate_processed]
          exact rememberOp_self _ _ hne
        exact hgoal
  · have huf : ∀ targetId c2,
        (runUpdateStepF rem (retainedFor ops item.sessionId) item.update item.finish
          targetId c2).2 = false →
        r.opId ∈ (runUpdateStepF rem (retainedFor ops item.sessionId) item.update
          item.finish targetId c2).1.processed := by
      intro targetId c2 hf2
      rcases hcase2 with hu | hfin
      · exact (runUpdateStepF_success rem _ _ _ _ c2 hf2).1 r hu hne
      · exact (runUpdateStepF_success rem _ _ _ _ c2 hf2).2 r hfin hne
    cases hcr : item.create with
    | none =>
      rw [hcr] at hflag
      exact huf _ _ hflag
    | some cop =>
      rw [hcr] at hflag
      by_cases hp : cop.opId ∈ c.processed
      · simp only [if_pos hp] at hflag ⊢
        exact huf _ _ hflag
      · simp only [if_neg hp] at hflag ⊢
        cases hcres : rem.createRes c.nCreate with
        | error e =>
          rw [hcres] at hflag
          simp at hflag
        | ok rid =>
          rw [hcres] at hflag
          exact huf _ _ hflag

/-- A fully successful flush leaves an empty outbox. -/
lemma flush_allOk_outbox (f : Nat → String) (st : Store) :
    (flush (allOk f) st).1.outbox = [] := by
  by_cases h : st.outbox.isEmpty
  · simp only [flush]
    rw [if_pos h]
    exact List.isEmpty_iff.mp h
  · simp only [flush]
    rw [if_neg h]
    rw [foldl_runGroup_allOk_remaining]
    rfl

/-- Folding the groups yields a retained list that is exactly the
concatenation of the original per-session blocks of the groups whose
computed failure flag is set. -/
lemma foldl_runGroup_remaining_det (rem : Remote) (ops : List Op) :
    ∀ (plan : List Coalesced) (c : FlushCtx),
      (plan.foldl (fun acc item => runGroup rem ops item acc) c).remaining =
        c.remaining ++
          ((plan.zip (flushFlags rem ops plan c)).map
            (fun p => if p.2 = true then retainedFor ops p.1.sessionId else [])).flatten := by
  intro plan
  induction plan with
  | nil =>
    intro c
    simp [flushFlags]
  | cons item rest ih =>
    intro c
    rw [List.foldl_cons, ih (runGroup rem ops item c), runGroup_remaining_eq]
    simp only [flushFlags, List.zip_cons_cons, List.map_cons, List.flatten_cons]
    rw [List.append_assoc]

/-- The flags list covers every group of the plan. -/
lemma flushFlags_length (rem : Remote) (ops : List Op) :
    ∀ (plan : List Coalesced) (c : FlushCtx),
      (flushFlags rem ops plan c).length = plan.length := by
  intro plan
  induction plan with
  | nil => intro c; rfl
  | cons item rest ih =>
    intro c
    simp [flushFlags, ih]

/-- Processed opIds survive the whole fold. -/
lemma foldl_runGroup_processed_mono (rem : Remote) (ops : List Op) :
    ∀ (plan : List Coalesced) (c : FlushCtx) (x : String), x ∈ c.processed →
      x ∈ (plan.foldl (fun acc item => runGroup rem ops item acc) c).processed := by
  intro plan
  induction plan with
  | nil => intro c x h; exact h
  | cons item rest ih =>
    intro c x h
    rw [List.foldl_cons]
    exact ih (runGroup rem ops item c) x (runGroup_processed_mono rem ops item c x h)

/-- Every group whose computed flag is clear has all its coalesced
operations in the processed set left by the fold, regardless of failures in
other groups. -/
lemma foldl_flags_processed (rem : Remote) (ops : List Op) :
    ∀ (plan : List Coalesced) (c : FlushCtx) (item : Coalesced) (flag : Bool),
      (item, flag) ∈ plan.zip (flushFlags rem ops plan c) → flag = false →
      ∀ r : ROp,
        (item.create = some r ∨ item.update = some r ∨ item.finish = some r) →
        r.opId ≠ "" →
        r.opId ∈ (plan.foldl (fun acc item => runGroup rem ops item acc) c).processed := by
  intro plan
  induction plan with
  | nil =>
    intro c item flag hmem
    cases hmem
  | cons it rest ih =>
    intro c item flag hmem hflag r hcase hne
    rw [List.foldl_cons]
    simp only [flushFlags, List.zip_cons_cons] at hmem
    rcases List.mem_cons.mp hmem with heq | hmem2
    · have hit : item = it := congrArg Prod.fst heq
      have hfl : flag = groupFails rem ops it c := congrArg Prod.snd heq
      subst hit
      rw [hflag] at hfl
      have hsucc := runGroupF_success rem ops item c hfl.symm r hcase hne
      rw [runGroupF_fst] at hsucc
      exact foldl_runGroup_processed_mono rem ops rest _ _ hsucc
    · exact ih (runGroup rem ops it c) item flag hmem2 hflag r hcase hne

/-- Every operation a failed group retains is a non-touch operation, so the
final touch filter leaves the retained blocks unchanged. -/
lemma retainedFor_no_touch (ops : List Op) (sid : String) :
    (retainedFor ops sid).filter (fun o => !o.isTouch) = retainedFor ops sid := by
  rw [List.filter_eq_self]
  intro o ho
  have hp := List.of_mem_filter ho
  cases o with
  | touch ts => simp at hp
  | reg r => rfl

/-! ## Claim theorems for the synchronizer -/

/-- Claim C1: running flush a second time over the persisted state left by
a completed (fully successful) first run performs zero remote calls; and
more generally, whenever every replayable outbox operation is already in
the processed set, a flush attempts zero remote create or update calls, so
no duplicate remote session is created and no session is re-finished. -/
theorem claim_C1_flush_idempotent :
    (∀ (st : Store) (f : Nat → String) (rem2 : Remote),
      (flush rem2 (flush (allOk f) st).1).2 = []) ∧
    (∀ (st : Store) (rem : Remote),
      st.outbox.all (opProcessedIn st.processed) = true →
      (flush rem st).2 = []) := by
  constructor
  · intro st f rem2
    have h := flush_allOk_outbox f st
    rw [flush_empty rem2 (flush (allOk f) st).1 h]
  · intro st rem hall
    by_cases h : st.outbox.isEmpty
    · rw [flush_empty rem st (List.isEmpty_iff.mp h)]
    · simp only [flush]
      rw [if_neg h]
      have hmem : ∀ r : ROp, Op.reg r ∈ st.outbox → r.opId ∈ st.processed := by
        intro r hr
        have := List.all_eq_true.mp hall _ hr
        rw [opProcessedIn] at this
        exact List.elem_iff.mp this
      have hside : ∀ item ∈ groupAndCoalesce st.outbox,
          (∀ r, item.create = some r → r.opId ∈ st.processed) ∧
          (∀ r, item.update = some r → r.opId ∈ st.processed) ∧
          (∀ r, item.finish = some r → r.opId ∈ st.processed) := by
        intro item hitem
        have hprov := coalesce_mem_ops st.outbox item hitem
        exact ⟨fun r hr => hmem r (hprov.1 r hr),
          fun r hr => hmem r (hprov.2.1 r hr),
          fun r hr => hmem r (hprov.2.2 r hr)⟩
      rw [foldl_runGroup_skip rem st.outbox (groupAndCoalesce st.outbox) _ hside]

/-- Claim C1 witness: a flush whose single queued operation is already in
the processed set attempts no remote call. -/
theorem claim_C1_witness :
    (flush (allOk (fun _ => "X"))
      { outbox := [Op.reg ⟨"op9", OpKind.update, "s9", payA⟩]
        index := []
        stampsMap := []
        processed := ["op9"] }).2 = [] := by
  exact claim_C1_flush_idempotent.2
    { outbox := [Op.reg ⟨"op9", OpKind.update, "s9", payA⟩]
      index := []
      stampsMap := []
      processed := ["op9"] }
    (allOk (fun _ => "X")) (by decide)

/-- Claim C8: retention and isolation are proved against the computed
per-group failure flags (groupFails reports whether a remote call of the
group threw, and its carrier runGroupF is proved equal to the flush step).
A group appends exactly its original uncoalesced non-touch operations,
verbatim, when one of its calls throws and nothing otherwise; the persisted
outbox is exactly the concatenation, over the coalesced groups in plan
order, of the retained blocks of the groups whose flag is set, so every
group is visited even after earlier failures; every group whose flag is
clear has all its coalesced operations in the persisted processed set,
regardless of failures in other groups; and on a concrete two-session store
whose first create throws, the first group is retained whole while the
second session is still created and marked processed. -/
theorem claim_C8_retention :
    (∀ (rem : Remote) (ops : List Op) (item : Coalesced) (c : FlushCtx),
      (runGroup rem ops item c).remaining =
        c.remaining ++
          (if groupFails rem ops item c = true
           then retainedFor ops item.sessionId else [])) ∧
    (∀ (rem : Remote) (st : Store),
      (flush rem st).1.outbox =
        (((groupAndCoalesce st.outbox).zip
            (flushFlags rem st.outbox (groupAndCoalesce st.outbox) (initCtx st))).map
          (fun p => if p.2 = true then retainedFor st.outbox p.1.sessionId
                    else [])).flatten) ∧
    (∀ (rem : Remote) (st : Store) (item : Coalesced) (flag : Bool),
      (item, flag) ∈ (groupAndCoalesce st.outbox).zip
        (flushFlags rem st.outbox (groupAndCoalesce st.outbox) (initCtx st)) →
      flag = false →
      ∀ r : ROp,
        (item.create = some r ∨ item.update = some r ∨ item.finish = some r) →
        r.opId ≠ "" → r.opId ∈ (flush rem st).1.processed) ∧
    ((flush remFailFirst storeC8).1.outbox =
        [Op.reg ⟨"op1", OpKind.create, "s1", payA⟩] ∧
      (flush remFailFirst storeC8).2 =
        [RemoteCall.createDoc payA, RemoteCall.createDoc payB] ∧
      (flush remFailFirst storeC8).1.processed = ["op2"]) := by
  refine ⟨runGroup_remaining_eq, ?_, ?_, by decide, by decide, by decide⟩
  · intro rem st
    by_cases h : st.outbox.isEmpty
    · have hnil : st.outbox = [] := List.isEmpty_iff.mp h
      rw [flush_empty rem st hnil, hnil]
      rfl
    · have heq := foldl_runGroup_remaining_det rem st.outbox (groupAndCoalesce st.outbox)
        (initCtx st)
      simp only [initCtx] at heq
      simp only [flush, initCtx]
      rw [if_neg h]
      show (List.filter _ _) = _
      rw [heq]
      simp only [List.nil_append]
      rw [List.filter_flatten]
      congr 1
      rw [List.map_map]
      apply List.map_congr_left
      intro p _
      by_cases hp : p.2 = true
      · simp only [Function.comp, if_pos hp]
        exact retainedFor_no_touch st.outbox p.1.sessionId
      · simp only [Function.comp, if_neg hp]
        rfl
  · intro rem st item flag hmem hflag r hcase hne
    by_cases h : st.outbox.isEmpty
    · have hnil : st.outbox = [] := List.isEmpty_iff.mp h
      rw [hnil] at hmem
      cases hmem
    · have hproc := foldl_flags_processed rem st.outbox (groupAndCoalesce st.outbox)
        (initCtx st) item flag ?_ hflag r hcase hne
      · simp only [flush]
        rw [if_neg h]
        simpa [initCtx] using hproc
      · simpa [initCtx] using hmem

/-- Claim C8 witness: in the concrete two-session run whose first create
throws, the second group's flag is clear and its create operation is marked
processed, through the theorem. -/
theorem claim_C8_witness :
    "op2" ∈ (flush remFailFirst storeC8).1.processed := by
  exact claim_C8_retention.2.2.1 remFailFirst storeC8
    ⟨"s2", some ⟨"op2", OpKind.create, "s2", payB⟩, none, none⟩ false
    (by decide) rfl ⟨"op2", OpKind.create, "s2", payB⟩ (Or.inl rfl) (by decide)

/-- Claim C2 counterexample: flushing a queued create with remote id R1
applies the create (the opId is processed and the index entry is moved),
yet the stamps cache still holds the entry under the old local placeholder
id, so the data exists under both ids, contradicting the claim that neither
cache retains the old key. -/
theorem claim_C2_counterexample :
    (flush (allOk (fun _ => "R1")) storeC2).1.processed = ["opC"] ∧
    alistGet (flush (allOk (fun _ => "R1")) storeC2).1.index "local:1" = none ∧
    alistGet (flush (allOk (fun _ => "R1")) storeC2).1.stampsMap "R1" = some [st2] ∧
    alistGet (flush (allOk (fun _ => "R1")) storeC2).1.stampsMap "local:1" = some [st2] := by
  exact ⟨by decide, by decide, by decide, by decide⟩

/-- Claim C2, amended: when the synchronizer applies a queued create, the
session-index entry is moved from the local placeholder id to the remote id
(no index entry remains under the old local id), while the per-session
stamps cache entry is copied to the remote id and the old local-id stamps
entry is retained, so the stamp data exists under both ids until the local
entry is overwritten or cleared. -/
theorem claim_C2_amended (localId rid opId : String) (pay : Payload)
    (entry : IndexEntry) (stlist : List Stamp)
    (hne : rid ≠ localId) (hstamps : stlist ≠ []) (hstatus : entry.status = "active") :
    (flush (allOk (fun _ => rid))
        { outbox := [Op.reg ⟨opId, OpKind.create, localId, pay⟩]
          index := [(localId, entry)]
          stampsMap := [(localId, stlist)]
          processed := [] }).1 =
      { outbox := []
        index := [(rid, { entry with id := rid })]
        stampsMap := [(localId, stlist), (rid, stlist)]
        processed := rememberOp [] opId } := by
  simp [flush, groupAndCoalesce, buildGroups, runGroup, bumpCreate, migrateCreate,
    runUpdateStep, runFinishStep, allOk, alistGet, alistSet, alistErase,
    groupInsert, emptyGroup, retainedFor, pruneIndex, rehydrateTimestampsInPayload,
    Op.isTouch, Op.sessionId?, hne, Ne.symm hne, hstatus, hstamps]

/-- Claim C2 witness: the amended migration behavior at a concrete local
id, remote id, and singleton stamp list, through the theorem. -/
theorem claim_C2_witness :
    (flush (allOk (fun _ => "R9"))
        { outbox := [Op.reg ⟨"op9", OpKind.create, "local:9", payA⟩]
          index := [("local:9", entry1)]
          stampsMap := [("local:9", [st2])]
          processed := [] }).1 =
      { outbox := []
        index := [("R9", { entry1 with id := "R9" })]
        stampsMap := [("local:9", [st2]), ("R9", [st2])]
        processed := rememberOp [] "op9" } := by
  exact claim_C2_amended "local:9" "R9" "op9" payA entry1 [st2]
    (by decide) (by decide) rfl

end PlanRunner
